import Mathlib

/-!
Verification of the NexusRAG hybrid-retrieval and reasoning core.

This file is a shallow embedding, in Lean 4, of the algorithmic core of the
NexusRAG repository: the BM25 keyword index (src/nexusrag/retrievers/bm25.py),
the hybrid score combiner (retrievers/hybrid.py), the cross-modal filter
(retrievers/cross_modal.py), the two re-rankers (retrievers/reranker.py), the
citation engine (reasoning/citation.py), the multi-step reasoner
(reasoning/multi_step.py) and the constrained JSON generator
(generation/constrained.py), together with theorems settling the frozen
claims about them.

Modelling conventions, used consistently below:
- Python text is modelled as `List Char`; `\w` word characters are modelled as
  ASCII alphanumerics plus underscore and lowercasing as `Char.toLower`.
- Python floats are modelled as `ℚ`; the external `math.log` is an explicit
  function parameter `log : ℚ → ℚ` (the claims proved here hold for every
  such function, as they do not depend on particular logarithm values).
- Python dicts are modelled as association lists in insertion order:
  assignment to an existing key updates the entry in place, assignment to a
  fresh key appends, and lookup returns the first (unique) match.
- `list.sort(key=k, reverse=True)` is modelled by the stable descending
  insertion sort `sortDescBy` (Python sorts are stable; ties keep their
  original relative order in both).
- Code that can raise an uncaught Python exception is modelled in
  `Except Unit`, with `.error ()` standing for the raised exception.
- External collaborators (the vector store, the LLM, the cross-encoder model,
  `json.loads`, `hashlib.md5`) are explicit function parameters.
-/

/-- Association list used to model a Python dict (insertion order kept). -/
abbrev PyDict (σ α : Type) := List (σ × α)

/-- First-match lookup, the model of reading a Python dict by key. -/
def dlookup {σ α : Type} [DecidableEq σ] : PyDict σ α → σ → Option α
  | [], _ => none
  | (k, v) :: rest, key => if k = key then some v else dlookup rest key

/-- Python dict assignment: updates an existing key in place, appends a new
    key at the end. -/
def dset {σ α : Type} [DecidableEq σ] : PyDict σ α → σ → α → PyDict σ α
  | [], key, v => [(key, v)]
  | (k, w) :: rest, key, v =>
      if k = key then (k, v) :: rest else (k, w) :: dset rest key v

theorem dlookup_dset {σ α : Type} [DecidableEq σ] (d : PyDict σ α) (k k' : σ) (v : α) :
    dlookup (dset d k v) k' = if k = k' then some v else dlookup d k' := by
  induction d with
  | nil => simp [dset, dlookup]
  | cons hd tl ih =>
      obtain ⟨k₀, v₀⟩ := hd
      by_cases h0 : k₀ = k
      · subst h0
        by_cases h1 : k₀ = k' <;> simp [dset, dlookup, h1]
      · by_cases h1 : k₀ = k'
        · subst h1
          have : ¬ k = k₀ := fun h => h0 h.symm
          simp [dset, dlookup, h0, this]
        · simp [dset, dlookup, h0, h1, ih]

/-- Keys of a dict. -/
def dkeys {σ α : Type} (d : PyDict σ α) : List σ := d.map Prod.fst

theorem dkeys_dset {σ α : Type} [DecidableEq σ] (d : PyDict σ α) (k : σ) (v : α) :
    dkeys (dset d k v) = if k ∈ dkeys d then dkeys d else dkeys d ++ [k] := by
  induction d with
  | nil => simp [dset, dkeys]
  | cons hd tl ih =>
      obtain ⟨k₀, v₀⟩ := hd
      by_cases h0 : k₀ = k
      · subst h0; simp [dset, dkeys]
      · have hne : ¬ k = k₀ := fun h => h0 h.symm
        by_cases h1 : k ∈ dkeys tl <;>
          simp only [dkeys, List.map] at ih h1 ⊢ <;>
          simp [dset, dkeys, h0, hne, h1, ih]

/-- Stable insertion of one element into a descending-sorted list: the new
    element goes after every element whose key is ≥ its own, which is exactly
    where a stable descending sort places a later-arriving element. -/
def insertDescBy {α : Type} (key : α → ℚ) (x : α) : List α → List α
  | [] => [x]
  | y :: ys => if key x ≤ key y then y :: insertDescBy key x ys else x :: y :: ys

/-- Model of Python `list.sort(key=key, reverse=True)` (a stable sort):
    elements are inserted left to right, each after all earlier elements with
    a greater-or-equal key. -/
def sortDescBy {α : Type} (key : α → ℚ) (l : List α) : List α :=
  l.foldl (fun acc x => insertDescBy key x acc) []

/-- Descending sortedness by a rational key (pairwise, which for this
    transitive relation coincides with the adjacent-pairs reading). -/
def SortedDesc {α : Type} (key : α → ℚ) (l : List α) : Prop :=
  l.Pairwise (fun a b => key b ≤ key a)

theorem mem_insertDescBy {α : Type} (key : α → ℚ) (x : α) (l : List α) (a : α) :
    a ∈ insertDescBy key x l ↔ a = x ∨ a ∈ l := by
  induction l with
  | nil => simp [insertDescBy]
  | cons y ys ih =>
      by_cases h : key x ≤ key y
      · rw [insertDescBy]
        simp only [h, if_pos, List.mem_cons, ih]
        tauto
      · rw [insertDescBy]
        simp only [h, if_neg, not_false_iff, List.mem_cons]

theorem sortedDesc_insertDescBy {α : Type} (key : α → ℚ) (x : α) (l : List α)
    (h : SortedDesc key l) : SortedDesc key (insertDescBy key x l) := by
  induction l with
  | nil => simp [insertDescBy, SortedDesc]
  | cons y ys ih =>
      rw [SortedDesc, List.pairwise_cons] at h
      by_cases hk : key x ≤ key y
      · rw [insertDescBy]
        simp only [hk, if_pos]
        rw [SortedDesc, List.pairwise_cons]
        refine ⟨fun a ha => ?_, ih h.2⟩
        rcases (mem_insertDescBy key x ys a).mp ha with rfl | ha
        · exact hk
        · exact h.1 a ha
      · rw [insertDescBy]
        simp only [hk, if_neg, not_false_iff]
        rw [SortedDesc, List.pairwise_cons]
        refine ⟨fun a ha => ?_, List.Pairwise.cons h.1 h.2⟩
        rcases List.mem_cons.mp ha with rfl | ha
        · exact le_of_lt (lt_of_not_le hk)
        · exact le_trans (h.1 a ha) (le_of_lt (lt_of_not_le hk))

theorem perm_insertDescBy {α : Type} (key : α → ℚ) (x : α) (l : List α) :
    List.Perm (insertDescBy key x l) (x :: l) := by
  induction l with
  | nil => rfl
  | cons y ys ih =>
      by_cases h : key x ≤ key y
      · rw [insertDescBy]
        simp only [h, if_pos]
        exact List.Perm.trans (ih.cons y) (List.Perm.swap x y ys)
      · rw [insertDescBy]; simp [h]

theorem perm_sortDescBy {α : Type} (key : α → ℚ) (l : List α) :
    List.Perm (sortDescBy key l) l := by
  suffices h : ∀ acc : List α,
      List.Perm (List.foldl (fun acc x => insertDescBy key x acc) acc l) (l ++ acc) by
    simpa using h []
  induction l with
  | nil => intro acc; simp
  | cons x xs ih =>
      intro acc
      refine List.Perm.trans (ih (insertDescBy key x acc)) ?_
      refine List.Perm.trans (List.Perm.append_left xs (perm_insertDescBy key x acc)) ?_
      exact List.Perm.trans List.perm_middle (by simp)

theorem sortedDesc_sortDescBy {α : Type} (key : α → ℚ) (l : List α) :
    SortedDesc key (sortDescBy key l) := by
  suffices h : ∀ acc : List α, SortedDesc key acc →
      SortedDesc key (List.foldl (fun acc x => insertDescBy key x acc) acc l) by
    exact h [] (by simp [SortedDesc])
  induction l with
  | nil => intro acc hacc; simpa using hacc
  | cons x xs ih =>
      intro acc hacc
      exact ih _ (sortedDesc_insertDescBy key x acc hacc)

theorem mem_sortDescBy {α : Type} (key : α → ℚ) (l : List α) (a : α) :
    a ∈ sortDescBy key l ↔ a ∈ l :=
  (perm_sortDescBy key l).mem_iff

/-- In a descending-sorted list, filtering the strictly positive entries
    commutes with truncation: every positive entry precedes every
    non-positive one. -/
theorem filter_take_of_sortedDesc {α : Type} (key : α → ℚ) :
    ∀ (l : List α), SortedDesc key l → ∀ (k : ℕ),
      (l.take k).filter (fun a => 0 < key a) = (l.filter (fun a => 0 < key a)).take k := by
  intro l
  induction l with
  | nil => intro _ k; simp
  | cons x xs ih =>
      intro h k
      rw [SortedDesc, List.pairwise_cons] at h
      cases k with
      | zero => simp
      | succ k' =>
          by_cases hx : 0 < key x
          · have hxd : decide (0 < key x) = true := decide_eq_true hx
            simp only [List.take_succ_cons, List.filter_cons, hxd, if_true]
            rw [ih h.2 k']
          · have hall : ∀ a ∈ x :: xs, ¬ (0 < key a) := by
              intro a ha
              rcases List.mem_cons.mp ha with rfl | ha
              · exact hx
              · intro hpos
                exact hx (lt_of_lt_of_le hpos (h.1 a ha))
            have h1 : (x :: xs).filter (fun a => 0 < key a) = [] := by
              rw [List.filter_eq_nil_iff]
              intro a ha
              simpa using hall a ha
            have h2 : ((x :: xs).take (k' + 1)).filter (fun a => 0 < key a) = [] := by
              rw [List.filter_eq_nil_iff]
              intro a ha
              simpa using hall a (List.take_subset _ _ ha)
            rw [h1, h2, List.take_nil]

/-- Entries surviving a take from a descending-sorted list dominate the
    dropped ones. -/
theorem take_dominates_of_sortedDesc {α : Type} (key : α → ℚ) (l : List α)
    (h : SortedDesc key l) (k : ℕ) :
    ∀ a ∈ l.take k, ∀ b ∈ l.drop k, key b ≤ key a := by
  have h' : SortedDesc key (l.take k ++ l.drop k) := by
    rw [List.take_append_drop]; exact h
  rw [SortedDesc, List.pairwise_append] at h'
  exact h'.2.2

/-- Word characters of the regex class backslash-w, modelled over ASCII:
    letters, digits and underscore. -/
def isWordChar (c : Char) : Bool := c.isAlphanum || c = '_'

/-- Lowercasing, the model of Python str.lower. -/
def lowerStr (s : List Char) : List Char := s.map Char.toLower

/-- Single pass collecting maximal runs of characters satisfying p; acc holds
    the current run reversed. -/
def runsByAux (p : Char → Bool) : List Char → List Char → List (List Char)
  | [], acc => if acc.isEmpty then [] else [acc.reverse]
  | c :: cs, acc =>
      if p c then runsByAux p cs (c :: acc)
      else if acc.isEmpty then runsByAux p cs []
      else acc.reverse :: runsByAux p cs []

/-- Maximal runs of characters satisfying p, in order; characters outside the
    runs are discarded.  With p = isWordChar this is re.findall of the
    word-boundary word pattern; with p = not-whitespace it is str.split(). -/
def runsBy (p : Char → Bool) (s : List Char) : List (List Char) := runsByAux p s []

/-- Tokenizer of BM25Retriever: lowercase then take maximal word-character
    runs (re.findall of backslash-b backslash-w+ backslash-b on text.lower(),
    whose word boundaries are redundant on maximal runs). -/
def tokenize (s : List Char) : List (List Char) := runsBy isWordChar (lowerStr s)

/-- Python substring membership (needle in haystack): the needle occurs as a
    contiguous block, checked at every suffix. -/
def pyIn (needle : List Char) : List Char → Bool
  | [] => needle.isEmpty
  | c :: t => needle.isPrefixOf (c :: t) || pyIn needle t

/-- Python whitespace split: str.split() with no arguments. -/
def splitWs (s : List Char) : List (List Char) := runsBy (fun c => !c.isWhitespace) s

/-- Count of non-overlapping occurrences scanning left to right (model of
    Python str.count for a non-empty needle); fuel bounds the scan length so
    the recursion is structural, and pyCount supplies fuel = haystack
    length, enough since every step consumes at least one character. -/
def countFrom (n : List Char) : ℕ → List Char → ℕ
  | 0, _ => 0
  | _, [] => 0
  | fuel + 1, c :: t =>
    if n.isPrefixOf (c :: t) then 1 + countFrom n fuel (t.drop (n.length - 1))
    else countFrom n fuel t

/-- Python str.count (an empty needle counts length + 1 gaps). -/
def pyCount (hay n : List Char) : ℕ :=
  match n with
  | [] => hay.length + 1
  | _ :: _ => countFrom n hay.length hay

/-- Document, the immutable unit produced by the parsers
    (src/nexusrag/parsers/base.py): content text plus a metadata mapping. -/
structure Document where
  content : List Char
  metadata : PyDict (List Char) (List Char)
deriving DecidableEq

/-- Placeholder document used only to make list indexing total. -/
def dummyDoc : Document := ⟨[], []⟩

/-- Search result returned by BM25Retriever.search: content, metadata and raw
    score. -/
structure SearchResult where
  content : List Char
  metadata : PyDict (List Char) (List Char)
  score : ℚ
deriving DecidableEq

/-- Instance state of BM25Retriever (src/nexusrag/retrievers/bm25.py):
    parameters k1 and b, the stored documents, and the incremental
    statistics. -/
@[ext]
structure BM25State where
  k1 : ℚ
  b : ℚ
  documents : List Document
  avg_doc_length : ℚ
  doc_count : ℕ
  term_freqs : PyDict (List Char) (PyDict ℕ ℕ)
  doc_freqs : PyDict (List Char) ℕ
  doc_lengths : PyDict ℕ ℕ
deriving DecidableEq

/-- BM25Retriever.__init__ with its Python defaults k1=1.5, b=0.75. -/
def initBM25 (k1 : ℚ := 3/2) (b : ℚ := 3/4) : BM25State :=
  { k1 := k1, b := b, documents := [], avg_doc_length := 0, doc_count := 0,
    term_freqs := [], doc_freqs := [], doc_lengths := [] }

/-- Per-document term frequencies: the local term_freq dict built inside
    add_documents (term_freq[token] = term_freq.get(token, 0) + 1). -/
def termFreqOf (tokens : List (List Char)) : PyDict (List Char) ℕ :=
  tokens.foldl (fun d t => dset d t ((dlookup d t).getD 0 + 1)) []

/-- Body of the term loop of add_documents: for one (term, freq) pair of the
    local term_freq dict, store the frequency under (term, doc_id) and bump
    the document frequency of the term. -/
def tfStep (doc_id : ℕ) (s : BM25State) (p : (List Char) × ℕ) : BM25State :=
  { s with
    term_freqs :=
      dset s.term_freqs p.1 (dset ((dlookup s.term_freqs p.1).getD []) doc_id p.2),
    doc_freqs := dset s.doc_freqs p.1 ((dlookup s.doc_freqs p.1).getD 0 + 1) }

/-- Body of the per-document loop of BM25Retriever.add_documents: append the
    document, record its token count, then fold its term frequencies into
    term_freqs and doc_freqs. -/
def addOneDoc (st : BM25State) (doc : Document) : BM25State :=
  let doc_id := st.documents.length
  let tokens := tokenize doc.content
  (termFreqOf tokens).foldl (tfStep doc_id)
    { st with
      documents := st.documents ++ [doc],
      doc_lengths := dset st.doc_lengths doc_id tokens.length }

/-- Sum of the values of a dict (sum(d.values())). -/
def sumVals (d : PyDict ℕ ℕ) : ℕ := (d.map Prod.snd).sum

/-- Statistics update at the end of add_documents: doc_count is the number of
    stored documents, and avg_doc_length is recomputed over all documents
    whenever doc_lengths is non-empty (otherwise left unchanged). -/
def recomputeStats (st : BM25State) : BM25State :=
  { st with
    doc_count := st.documents.length,
    avg_doc_length :=
      if st.doc_lengths ≠ [] then (sumVals st.doc_lengths : ℚ) / (st.doc_lengths.length : ℚ)
      else st.avg_doc_length }

/-- BM25Retriever.add_documents: per-document processing in order, then the
    statistics update. -/
def add_documents (st : BM25State) (docs : List Document) : BM25State :=
  recomputeStats (docs.foldl addOneDoc st)

/-- Two-level lookup into term_freqs (term in term_freqs and doc_id in
    term_freqs[term], then the stored frequency). -/
def dlookup2 (tf : PyDict (List Char) (PyDict ℕ ℕ)) (t : List Char) (i : ℕ) : Option ℕ :=
  match dlookup tf t with
  | none => none
  | some inner => dlookup inner i

/-- Score contribution of one query term present in a document, exactly the
    BM25 formula block of the search loop: idf from doc_freqs, length
    normalization from doc_lengths and avg_doc_length, with the stored term
    frequency tf. -/
def bm25TermScore (log : ℚ → ℚ) (st : BM25State) (term : List Char) (doc_id tf : ℕ) : ℚ :=
  let df : ℕ := (dlookup st.doc_freqs term).getD 0
  let dl : ℕ := (dlookup st.doc_lengths doc_id).getD 0
  let idf := log (((st.doc_count : ℚ) - (df : ℚ) + 1/2) / ((df : ℚ) + 1/2))
  let num := (tf : ℚ) * (st.k1 + 1)
  let den := (tf : ℚ) + st.k1 * (1 - st.b + st.b * ((dl : ℚ) / st.avg_doc_length))
  idf * (num / den)

/-- Body of the score accumulation of the search loop: a query term
    contributes its BM25 term score when it is recorded for the document
    (term in term_freqs and doc_id in term_freqs[term]) and nothing
    otherwise. -/
def scoreStep (log : ℚ → ℚ) (st : BM25State) (doc_id : ℕ) (acc : ℚ) (term : List Char) : ℚ :=
  match dlookup2 st.term_freqs term doc_id with
  | none => acc
  | some tf => acc + bm25TermScore log st term doc_id tf

/-- Score contribution of a single query term to a document (0 when the term
    is not recorded for it). -/
def termScoreOrZero (log : ℚ → ℚ) (st : BM25State) (doc_id : ℕ) (term : List Char) : ℚ :=
  match dlookup2 st.term_freqs term doc_id with
  | none => 0
  | some tf => bm25TermScore log st term doc_id tf

/-- BM25Retriever.search.  The external math.log is the parameter log; every
    other step follows the source: empty index short-circuits to [], every
    document id gets the summed BM25 term scores, the (doc_id, score) pairs
    are sorted by score descending (stable) and truncated to top_k, and only
    strictly positive scores are kept and formatted. -/
def search (log : ℚ → ℚ) (st : BM25State) (query : List Char) (top_k : ℕ) :
    List SearchResult :=
  if st.documents.isEmpty then []
  else
    let query_terms := tokenize query
    let scores : List (ℕ × ℚ) :=
      (List.range st.documents.length).map (fun doc_id =>
        (doc_id, query_terms.foldl (scoreStep log st doc_id) 0))
    let sorted_docs := (sortDescBy (fun p => p.2) scores).take top_k
    (sorted_docs.filter (fun p => 0 < p.2)).map (fun p =>
      { content := (st.documents.getD p.1 dummyDoc).content,
        metadata := (st.documents.getD p.1 dummyDoc).metadata,
        score := p.2 })

theorem dlookup_eq_none_iff {σ α : Type} [DecidableEq σ] (d : PyDict σ α) (k : σ) :
    dlookup d k = none ↔ k ∉ dkeys d := by
  induction d with
  | nil => simp [dlookup, dkeys]
  | cons hd tl ih =>
      obtain ⟨k₀, v₀⟩ := hd
      by_cases h : k₀ = k
      · subst h; simp [dlookup, dkeys]
      · simp [dlookup, dkeys, h, Ne.symm h, ih]

theorem dset_eq_append_of_not_mem {σ α : Type} [DecidableEq σ] (d : PyDict σ α) (k : σ)
    (v : α) (h : k ∉ dkeys d) : dset d k v = d ++ [(k, v)] := by
  induction d with
  | nil => simp [dset]
  | cons hd tl ih =>
      obtain ⟨k₀, v₀⟩ := hd
      simp only [dkeys, List.map, List.mem_cons, not_or] at h
      have : ¬ k₀ = k := fun hh => h.1 hh.symm
      simp only [dset, this, if_neg, not_false_iff, List.cons_append, List.cons.injEq, true_and]
      exact ih h.2

theorem length_le_length_dset {σ α : Type} [DecidableEq σ] (d : PyDict σ α) (k : σ) (v : α) :
    d.length ≤ (dset d k v).length := by
  induction d with
  | nil => simp [dset]
  | cons hd tl ih =>
      obtain ⟨k₀, v₀⟩ := hd
      by_cases h : k₀ = k
      · simp [dset, h]
      · simp only [dset, h, if_neg, not_false_iff, List.length_cons]
        omega

theorem dlookup2_dset_inner (TF : PyDict (List Char) (PyDict ℕ ℕ)) (t₀ t : List Char)
    (doc_id i c : ℕ) :
    dlookup2 (dset TF t₀ (dset ((dlookup TF t₀).getD []) doc_id c)) t i =
      if t₀ = t then (if doc_id = i then some c else dlookup2 TF t₀ i)
      else dlookup2 TF t i := by
  unfold dlookup2
  rw [dlookup_dset]
  by_cases h : t₀ = t
  · subst h
    simp only [if_pos]
    rw [dlookup_dset]
    by_cases hdi : doc_id = i
    · simp [hdi]
    · simp only [hdi, if_neg, not_false_iff]
      cases hTF : dlookup TF t₀ <;> simp [dlookup]
  · simp [h]

theorem dlookup_termFreqOf (toks : List (List Char)) (t : List Char) :
    dlookup (termFreqOf toks) t =
      if 0 < toks.count t then some (toks.count t) else none := by
  suffices h : ∀ (ts : List (List Char)) (acc : PyDict (List Char) ℕ),
      dlookup (ts.foldl (fun d tk => dset d tk ((dlookup d tk).getD 0 + 1)) acc) t =
        match dlookup acc t with
        | some v => some (v + ts.count t)
        | none => if 0 < ts.count t then some (ts.count t) else none by
    rw [termFreqOf, h toks []]
    simp [dlookup]
  intro ts
  induction ts with
  | nil =>
      intro acc
      cases hacc : dlookup acc t <;> simp [hacc]
  | cons t' ts ih =>
      intro acc
      rw [List.foldl_cons, ih]
      by_cases h : t' = t
      · subst h
        rw [dlookup_dset]
        simp only [if_pos]
        cases hacc : dlookup acc t' <;>
          simp [hacc, List.count_cons, Nat.add_comm, Nat.add_assoc, Nat.add_left_comm]
      · rw [dlookup_dset]
        simp only [h, if_neg, not_false_iff]
        cases hacc : dlookup acc t <;> simp [hacc, List.count_cons, Ne.symm h]

theorem nodup_dkeys_dset {σ α : Type} [DecidableEq σ] (d : PyDict σ α) (k : σ) (v : α)
    (h : (dkeys d).Nodup) : (dkeys (dset d k v)).Nodup := by
  rw [dkeys_dset]
  by_cases hk : k ∈ dkeys d
  · simp [hk, h]
  · simp only [hk, if_neg, not_false_iff]
    simpa [List.nodup_append] using ⟨h, hk⟩

theorem nodup_dkeys_termFreqOf (toks : List (List Char)) :
    (dkeys (termFreqOf toks)).Nodup := by
  suffices h : ∀ (ts : List (List Char)) (acc : PyDict (List Char) ℕ),
      (dkeys acc).Nodup →
      (dkeys (ts.foldl (fun d tk => dset d tk ((dlookup d tk).getD 0 + 1)) acc)).Nodup by
    exact h toks [] (by simp [dkeys])
  intro ts
  induction ts with
  | nil => intro acc hacc; simpa using hacc
  | cons t' ts ih =>
      intro acc hacc
      rw [List.foldl_cons]
      exact ih _ (nodup_dkeys_dset acc t' _ hacc)

theorem foldl_tfStep_fields (doc_id : ℕ) (items : PyDict (List Char) ℕ) :
    ∀ s : BM25State,
      (items.foldl (tfStep doc_id) s).documents = s.documents ∧
      (items.foldl (tfStep doc_id) s).doc_lengths = s.doc_lengths ∧
      (items.foldl (tfStep doc_id) s).k1 = s.k1 ∧
      (items.foldl (tfStep doc_id) s).b = s.b ∧
      (items.foldl (tfStep doc_id) s).avg_doc_length = s.avg_doc_length ∧
      (items.foldl (tfStep doc_id) s).doc_count = s.doc_count := by
  induction items with
  | nil => intro s; simp
  | cons p ps ih =>
      intro s
      rw [List.foldl_cons]
      simpa [tfStep] using ih (tfStep doc_id s p)

theorem foldl_tfStep_term_freqs (doc_id : ℕ) (t : List Char) (i : ℕ) :
    ∀ (items : PyDict (List Char) ℕ), (dkeys items).Nodup → ∀ s : BM25State,
      dlookup2 (items.foldl (tfStep doc_id) s).term_freqs t i =
        match dlookup items t with
        | some c => if doc_id = i then some c else dlookup2 s.term_freqs t i
        | none => dlookup2 s.term_freqs t i := by
  intro items
  induction items with
  | nil => intro _ s; simp [dlookup]
  | cons p ps ih =>
      obtain ⟨t₀, c₀⟩ := p
      intro hnd s
      have hnd0 : t₀ ∉ dkeys ps ∧ (dkeys ps).Nodup := by
        have := hnd
        simp only [dkeys, List.map, List.nodup_cons] at this
        exact this
      rw [List.foldl_cons, ih hnd0.2 (tfStep doc_id s (t₀, c₀))]
      have htf : dlookup2 (tfStep doc_id s (t₀, c₀)).term_freqs t i =
          if t₀ = t then (if doc_id = i then some c₀ else dlookup2 s.term_freqs t₀ i)
          else dlookup2 s.term_freqs t i := by
        simpa [tfStep] using dlookup2_dset_inner s.term_freqs t₀ t doc_id i c₀
      by_cases h : t₀ = t
      · subst h
        have hnone : dlookup ps t₀ = none := (dlookup_eq_none_iff ps t₀).mpr hnd0.1
        rw [hnone, htf]
        simp [dlookup]
      · have htf2 : dlookup2 (tfStep doc_id s (t₀, c₀)).term_freqs t i =
            dlookup2 s.term_freqs t i := by rw [htf]; simp [h]
        cases hps : dlookup ps t <;> simp [dlookup, h, hps, htf2]

theorem foldl_tfStep_doc_freqs (doc_id : ℕ) (t : List Char) :
    ∀ (items : PyDict (List Char) ℕ), (dkeys items).Nodup → ∀ s : BM25State,
      dlookup (items.foldl (tfStep doc_id) s).doc_freqs t =
        match dlookup items t with
        | some _ => some ((dlookup s.doc_freqs t).getD 0 + 1)
        | none => dlookup s.doc_freqs t := by
  intro items
  induction items with
  | nil => intro _ s; simp [dlookup]
  | cons p ps ih =>
      obtain ⟨t₀, c₀⟩ := p
      intro hnd s
      have hnd0 : t₀ ∉ dkeys ps ∧ (dkeys ps).Nodup := by
        have := hnd
        simp only [dkeys, List.map, List.nodup_cons] at this
        exact this
      rw [List.foldl_cons, ih hnd0.2 (tfStep doc_id s (t₀, c₀))]
      have hdf : dlookup (tfStep doc_id s (t₀, c₀)).doc_freqs t =
          if t₀ = t then some ((dlookup s.doc_freqs t₀).getD 0 + 1)
          else dlookup s.doc_freqs t := by
        simp [tfStep, dlookup_dset]
      by_cases h : t₀ = t
      · subst h
        have hnone : dlookup ps t₀ = none := (dlookup_eq_none_iff ps t₀).mpr hnd0.1
        rw [hnone, hdf]
        simp [dlookup]
      · have hdf2 : dlookup (tfStep doc_id s (t₀, c₀)).doc_freqs t =
            dlookup s.doc_freqs t := by rw [hdf]; simp [h]
        cases hps : dlookup ps t <;> simp [dlookup, h, hps, hdf2]

/-- Number of occurrences of term t among the tokens of document i of ds. -/
def tokCount (ds : List Document) (i : ℕ) (t : List Char) : ℕ :=
  (tokenize ((ds.getD i dummyDoc).content)).count t

/-- Token count of document i of ds. -/
def tokLenAt (ds : List Document) (i : ℕ) : ℕ :=
  (tokenize ((ds.getD i dummyDoc).content)).length

/-- Number of documents of ds whose tokens contain the term t. -/
def nDocs (ds : List Document) (t : List Char) : ℕ :=
  (ds.filter (fun d => t ∈ tokenize d.content)).length

/-- Representation invariant of the BM25 statistics: an index state holds
    exactly the tokenizer-derived frequencies of the corpus it was built
    from. -/
def BMInv (k1v bv : ℚ) (ds : List Document) (st : BM25State) : Prop :=
  st.k1 = k1v ∧ st.b = bv ∧ st.documents = ds ∧
  st.doc_lengths = (List.range ds.length).map (fun i => (i, tokLenAt ds i)) ∧
  (∀ t i, dlookup2 st.term_freqs t i =
    if i < ds.length ∧ 0 < tokCount ds i t then some (tokCount ds i t) else none) ∧
  (∀ t, dlookup st.doc_freqs t =
    if 0 < nDocs ds t then some (nDocs ds t) else none)

theorem BMInv_init (k1v bv : ℚ) : BMInv k1v bv [] (initBM25 k1v bv) := by
  refine ⟨rfl, rfl, rfl, by simp [initBM25], fun t i => ?_, fun t => ?_⟩
  · simp [initBM25, dlookup2, dlookup]
  · simp [initBM25, dlookup, nDocs]

theorem tokCount_append_lt (ds : List Document) (d : Document) (i : ℕ) (t : List Char)
    (h : i < ds.length) : tokCount (ds ++ [d]) i t = tokCount ds i t := by
  unfold tokCount
  rw [List.getD_append ds [d] dummyDoc i h]

theorem tokCount_append_last (ds : List Document) (d : Document) (t : List Char) :
    tokCount (ds ++ [d]) ds.length t = (tokenize d.content).count t := by
  unfold tokCount
  have : (ds ++ [d]).getD ds.length dummyDoc = d := by
    simp [List.getD_append_right, le_refl]
  rw [this]

theorem tokLenAt_append_lt (ds : List Document) (d : Document) (i : ℕ)
    (h : i < ds.length) : tokLenAt (ds ++ [d]) i = tokLenAt ds i := by
  unfold tokLenAt
  rw [List.getD_append ds [d] dummyDoc i h]

theorem tokLenAt_append_last (ds : List Document) (d : Document) :
    tokLenAt (ds ++ [d]) ds.length = (tokenize d.content).length := by
  unfold tokLenAt
  have : (ds ++ [d]).getD ds.length dummyDoc = d := by
    simp [List.getD_append_right, le_refl]
  rw [this]

theorem nDocs_append (ds : List Document) (d : Document) (t : List Char) :
    nDocs (ds ++ [d]) t = nDocs ds t + if t ∈ tokenize d.content then 1 else 0 := by
  unfold nDocs
  rw [List.filter_append]
  by_cases h : t ∈ tokenize d.content <;> simp [h]

theorem bminv_tf_shift (ds : List Document) (d : Document) (t : List Char) (i : ℕ)
    (hne : i ≠ ds.length) :
    (if i < (ds ++ [d]).length ∧ 0 < tokCount (ds ++ [d]) i t
     then some (tokCount (ds ++ [d]) i t) else none) =
      (if i < ds.length ∧ 0 < tokCount ds i t then some (tokCount ds i t) else none) := by
  by_cases hi : i < ds.length
  · have h1 : i < ds.length + 1 := by omega
    rw [tokCount_append_lt ds d i t hi]
    simp only [List.length_append, List.length_singleton]
    simp [hi, h1]
  · have h1 : ¬ i < ds.length + 1 := by omega
    simp only [List.length_append, List.length_singleton]
    simp [hi, h1]

theorem BMInv_addOneDoc (k1v bv : ℚ) (ds : List Document) (st : BM25State) (d : Document)
    (h : BMInv k1v bv ds st) : BMInv k1v bv (ds ++ [d]) (addOneDoc st d) := by
  obtain ⟨hk1, hb, hdocs, hdl, htf, hdf⟩ := h
  have hdocid : st.documents.length = ds.length := by rw [hdocs]
  simp only [addOneDoc]
  obtain ⟨f1, f2, f3, f4, _, _⟩ :=
    foldl_tfStep_fields st.documents.length (termFreqOf (tokenize d.content))
      { st with
        documents := st.documents ++ [d],
        doc_lengths := dset st.doc_lengths st.documents.length (tokenize d.content).length }
  refine ⟨?_, ?_, ?_, ?_, ?_, ?_⟩
  · rw [f3]; exact hk1
  · rw [f4]; exact hb
  · rw [f1]
    show st.documents ++ [d] = ds ++ [d]
    rw [hdocs]
  · rw [f2]
    show dset st.doc_lengths st.documents.length (tokenize d.content).length = _
    rw [hdl, hdocid]
    have hnotmem :
        (ds.length : ℕ) ∉ dkeys ((List.range ds.length).map (fun i => (i, tokLenAt ds i))) := by
      simp [dkeys, List.map_map, Function.comp]
    rw [dset_eq_append_of_not_mem _ _ _ hnotmem]
    have hlen : (ds ++ [d]).length = ds.length + 1 := by simp
    rw [hlen, List.range_succ, List.map_append]
    congr 1
    · refine List.map_congr_left (fun i hi => ?_)
      rw [List.mem_range] at hi
      rw [tokLenAt_append_lt ds d i hi]
    · rw [List.map_singleton, tokLenAt_append_last ds d]
  · intro t i
    rw [foldl_tfStep_term_freqs st.documents.length t i (termFreqOf (tokenize d.content))
        (nodup_dkeys_termFreqOf _), dlookup_termFreqOf]
    by_cases hc : 0 < (tokenize d.content).count t
    · rw [if_pos hc]
      show (if st.documents.length = i then some ((tokenize d.content).count t)
            else dlookup2 st.term_freqs t i) = _
      by_cases hi : st.documents.length = i
      · rw [if_pos hi]
        have hieq : i = ds.length := by omega
        have h1 : i < (ds ++ [d]).length := by simp; omega
        have hcnt : tokCount (ds ++ [d]) i t = (tokenize d.content).count t := by
          rw [hieq]; exact tokCount_append_last ds d t
        rw [if_pos ⟨h1, by rw [hcnt]; exact hc⟩, hcnt]
      · rw [if_neg hi, htf t i, bminv_tf_shift ds d t i (by omega)]
    · rw [if_neg hc]
      show dlookup2 st.term_freqs t i = _
      by_cases hi : i = ds.length
      · rw [htf t i]
        have hcnt0 : ¬ 0 < tokCount (ds ++ [d]) i t := by
          rw [hi, tokCount_append_last]; exact hc
        rw [if_neg (by intro hcc; omega), if_neg (fun hcc => hcnt0 hcc.2)]
      · rw [htf t i, bminv_tf_shift ds d t i hi]
  · intro t
    rw [foldl_tfStep_doc_freqs st.documents.length t (termFreqOf (tokenize d.content))
        (nodup_dkeys_termFreqOf _), dlookup_termFreqOf]
    by_cases hc : t ∈ tokenize d.content
    · rw [if_pos (List.count_pos_iff.mpr hc)]
      show some ((dlookup st.doc_freqs t).getD 0 + 1) = _
      have hgd : (dlookup st.doc_freqs t).getD 0 = nDocs ds t := by
        rw [hdf t]
        by_cases h0 : 0 < nDocs ds t
        · simp [h0]
        · simp [h0]; omega
      rw [hgd, nDocs_append]
      simp [hc]
    · rw [if_neg (by simpa [List.count_pos_iff] using hc)]
      show dlookup st.doc_freqs t = _
      rw [hdf t, nDocs_append]
      simp [hc]

theorem BMInv_foldl (k1v bv : ℚ) :
    ∀ (ds ds₀ : List Document) (st : BM25State), BMInv k1v bv ds₀ st →
      BMInv k1v bv (ds₀ ++ ds) (ds.foldl addOneDoc st) := by
  intro ds
  induction ds with
  | nil => intro ds₀ st h; simpa using h
  | cons d ds ih =>
      intro ds₀ st h
      rw [List.foldl_cons]
      have h2 := ih (ds₀ ++ [d]) (addOneDoc st d) (BMInv_addOneDoc k1v bv ds₀ st d h)
      simpa [List.append_assoc] using h2

theorem BMInv_recomputeStats (k1v bv : ℚ) (ds : List Document) (st : BM25State)
    (h : BMInv k1v bv ds st) : BMInv k1v bv ds (recomputeStats st) := h

theorem BMInv_built (k1v bv : ℚ) (ds : List Document) :
    BMInv k1v bv ds (add_documents (initBM25 k1v bv) ds) := by
  rw [add_documents]
  refine BMInv_recomputeStats k1v bv ds _ ?_
  simpa using BMInv_foldl k1v bv ds [] (initBM25 k1v bv) (BMInv_init k1v bv)

theorem range_map_getD {β : Type} (ds : List Document) (f : Document → β) :
    (List.range ds.length).map (fun i => f (ds.getD i dummyDoc)) = ds.map f := by
  apply List.ext_getElem
  · simp
  · intro i h1 h2
    have hi : i < ds.length := by simpa using h2
    simp only [List.getElem_map, List.getElem_range]
    rw [List.getD_eq_getElem ds dummyDoc hi]

theorem built_doc_count (k1v bv : ℚ) (ds : List Document) :
    (add_documents (initBM25 k1v bv) ds).doc_count = ds.length := by
  have hdocs := (BMInv_built k1v bv ds).2.2.1
  have : (add_documents (initBM25 k1v bv) ds).doc_count =
      (add_documents (initBM25 k1v bv) ds).documents.length := by
    rw [add_documents]
    rfl
  rw [this, hdocs]

theorem built_avg (k1v bv : ℚ) (ds : List Document) (h : ds ≠ []) :
    (add_documents (initBM25 k1v bv) ds).avg_doc_length =
      ((ds.map (fun d => (tokenize d.content).length)).sum : ℚ) / (ds.length : ℚ) := by
  have hfold := (by
    simpa using BMInv_foldl k1v bv ds [] (initBM25 k1v bv) (BMInv_init k1v bv) :
    BMInv k1v bv ds (ds.foldl addOneDoc (initBM25 k1v bv)))
  obtain ⟨_, _, _, hdl, _, _⟩ := hfold
  rw [add_documents, recomputeStats]
  simp only
  rw [hdl]
  have hne : (List.range ds.length).map (fun i => (i, tokLenAt ds i)) ≠ [] := by
    intro hnil
    apply h
    have hlen := congrArg List.length hnil
    simp only [List.length_map, List.length_range, List.length_nil] at hlen
    exact List.eq_nil_of_length_eq_zero hlen
  rw [if_pos hne]
  have h1 : sumVals ((List.range ds.length).map (fun i => (i, tokLenAt ds i))) =
      ((List.range ds.length).map (fun i => tokLenAt ds i)).sum := by
    simp only [sumVals, List.map_map]
    rfl
  have h2 : (List.range ds.length).map (fun i => tokLenAt ds i) =
      ds.map (fun d => (tokenize d.content).length) := by
    exact range_map_getD ds (fun d => (tokenize d.content).length)
  rw [h1, h2]
  simp

theorem foldl_match_sum {β γ : Type} (F : β → Option γ) (g : β → γ → ℚ) (l : List β) :
    ∀ c : ℚ,
      l.foldl (fun acc x => match F x with | none => acc | some y => acc + g x y) c =
        c + (l.map (fun x => match F x with | none => 0 | some y => g x y)).sum := by
  induction l with
  | nil => intro c; simp
  | cons x xs ih =>
      intro c
      rw [List.foldl_cons, List.map_cons, List.sum_cons]
      cases hF : F x
      · rw [ih c]
        simp
      · rw [ih]
        ring

theorem dlookup_append {σ α : Type} [DecidableEq σ] (l1 l2 : PyDict σ α) (k : σ) :
    dlookup (l1 ++ l2) k =
      match dlookup l1 k with
      | some v => some v
      | none => dlookup l2 k := by
  induction l1 with
  | nil => simp [dlookup]
  | cons hd tl ih =>
      obtain ⟨k₀, v₀⟩ := hd
      by_cases h : k₀ = k <;> simp [dlookup, h, ih]

theorem dlookup_range_map (n : ℕ) (g : ℕ → ℕ) (i : ℕ) :
    dlookup ((List.range n).map (fun j => (j, g j))) i =
      if i < n then some (g i) else none := by
  induction n with
  | zero => simp [dlookup]
  | succ m ih =>
      rw [List.range_succ, List.map_append, dlookup_append, ih]
      by_cases h : i < m
      · simp [h, Nat.lt_succ_of_lt h]
      · by_cases h2 : i = m
        · subst h2
          simp [h, dlookup, Nat.lt_succ_self]
        · have h3 : ¬ i < m + 1 := by omega
          have h4 : ¬ m = i := fun hh => h2 hh.symm
          simp [h, h3, dlookup, h4]

theorem foldl_scoreStep_sum (log : ℚ → ℚ) (st : BM25State) (doc_id : ℕ)
    (l : List (List Char)) : ∀ c : ℚ,
    l.foldl (scoreStep log st doc_id) c =
      c + (l.map (termScoreOrZero log st doc_id)).sum := by
  induction l with
  | nil => intro c; simp
  | cons x xs ih =>
      intro c
      rw [List.foldl_cons, List.map_cons, List.sum_cons, ih]
      cases hF : dlookup2 st.term_freqs x doc_id <;>
        simp only [scoreStep, termScoreOrZero, hF] <;> ring

theorem built_score_eq (k1v bv : ℚ) (log : ℚ → ℚ) (ds : List Document) (q : List Char)
    (i : ℕ) (hi : i < ds.length) :
    (tokenize q).foldl (scoreStep log (add_documents (initBM25 k1v bv) ds) i) 0 =
      ((tokenize q).map (fun t =>
        if t ∈ tokenize ((ds.getD i dummyDoc).content) then
          log (((ds.length : ℚ) - (nDocs ds t : ℚ) + 1/2) / ((nDocs ds t : ℚ) + 1/2)) *
            ((tokCount ds i t : ℚ) * (k1v + 1) /
              ((tokCount ds i t : ℚ) +
                k1v * (1 - bv + bv * ((tokLenAt ds i : ℚ) /
                  (((ds.map (fun d => (tokenize d.content).length)).sum : ℚ) /
                    (ds.length : ℚ))))))
        else 0)).sum := by
  rw [foldl_scoreStep_sum, zero_add]
  apply congrArg List.sum
  apply List.map_congr_left
  intro t _
  obtain ⟨hk1, hb, hdocs, hdl, htf, hdf⟩ := BMInv_built k1v bv ds
  rw [termScoreOrZero, htf t i]
  by_cases hc : 0 < tokCount ds i t
  · have hmem : t ∈ tokenize ((ds.getD i dummyDoc).content) := by
      unfold tokCount at hc
      exact List.count_pos_iff.mp hc
    rw [if_pos ⟨hi, hc⟩, if_pos hmem]
    show bm25TermScore log _ t i (tokCount ds i t) = _
    have hne : ds ≠ [] := by
      intro hnil; subst hnil; simp at hi
    have hpos : 0 < nDocs ds t := by
      have hm : ds.getD i dummyDoc ∈ ds := by
        rw [List.getD_eq_getElem ds dummyDoc hi]
        exact List.getElem_mem hi
      have : ds.getD i dummyDoc ∈ ds.filter (fun d => t ∈ tokenize d.content) :=
        List.mem_filter.mpr ⟨hm, by simpa using hmem⟩
      exact List.length_pos_of_mem this
    have hdfs : dlookup (add_documents (initBM25 k1v bv) ds).doc_freqs t =
        some (nDocs ds t) := by rw [hdf t, if_pos hpos]
    have hdls : dlookup (add_documents (initBM25 k1v bv) ds).doc_lengths i =
        some (tokLenAt ds i) := by
      rw [hdl, dlookup_range_map, if_pos hi]
    simp only [bm25TermScore, hdfs, hdls, Option.getD_some, built_doc_count,
      built_avg k1v bv ds hne, hk1, hb]
  · have hnmem : t ∉ tokenize ((ds.getD i dummyDoc).content) := by
      intro hm
      apply hc
      unfold tokCount
      exact List.count_pos_iff.mpr hm
    rw [if_neg (fun hcc => hc hcc.2), if_neg hnmem]

theorem snd_filter_take_comm (l : List (ℕ × ℚ)) (hl : SortedDesc (fun p => p.2) l) (k : ℕ) :
    (l.take k).filter (fun p => 0 < p.2) = (l.filter (fun p => 0 < p.2)).take k :=
  filter_take_of_sortedDesc (fun p => p.2) l hl k

/-- C1: for every BM25 index state built by add_documents (by C6 any sequence
    of calls equals one call on the concatenation) and every query, search
    tokenizes the query (lowercase word runs), gives every document the score
    sum over query terms t present in it of
    idf(t) * f(t,d) * (k1+1) / (f(t,d) + k1 * (1 - b + b * len(d)/avgdl)) with
    idf(t) = log((N - n(t) + 0.5)/(n(t) + 0.5)), excludes documents whose
    total score is not strictly positive, and returns the rest sorted
    descending by score (stably) and truncated to top_k; an empty index and a
    query sharing no term with any document both give [].  The external
    math.log is the parameter log and the statement holds for every log;
    initBM25 defaults are k1=1.5, b=0.75. -/
theorem bm25_search_matches_spec (k1v bv : ℚ) (log : ℚ → ℚ) (ds : List Document)
    (q : List Char) (top_k : ℕ) :
    search log (add_documents (initBM25 k1v bv) ds) q top_k =
      ((((sortDescBy (fun p => p.2)
          ((List.range ds.length).map (fun i =>
            (i, ((tokenize q).map (fun t =>
                  if t ∈ tokenize ((ds.getD i dummyDoc).content) then
                    log (((ds.length : ℚ) - (nDocs ds t : ℚ) + 1/2) /
                        ((nDocs ds t : ℚ) + 1/2)) *
                      ((tokCount ds i t : ℚ) * (k1v + 1) /
                        ((tokCount ds i t : ℚ) +
                          k1v * (1 - bv + bv * ((tokLenAt ds i : ℚ) /
                            (((ds.map (fun d => (tokenize d.content).length)).sum : ℚ) /
                              (ds.length : ℚ))))))
                  else 0)).sum)))).filter (fun p => 0 < p.2)).take top_k).map
        (fun p => ({ content := (ds.getD p.1 dummyDoc).content,
                     metadata := (ds.getD p.1 dummyDoc).metadata,
                     score := p.2 } : SearchResult))) ∧
    (ds = [] → search log (add_documents (initBM25 k1v bv) ds) q top_k = []) ∧
    ((∀ t ∈ tokenize q, ∀ d ∈ ds, t ∉ tokenize d.content) →
      search log (add_documents (initBM25 k1v bv) ds) q top_k = []) := by
  obtain ⟨hk1, hb, hdocs, hdl, htf, hdf⟩ := BMInv_built k1v bv ds
  have hempty : ds = [] → search log (add_documents (initBM25 k1v bv) ds) q top_k = [] := by
    intro hds
    rw [search, if_pos]
    rw [hdocs, hds]
    rfl
  have hmain : search log (add_documents (initBM25 k1v bv) ds) q top_k =
      ((((sortDescBy (fun p => p.2)
          ((List.range ds.length).map (fun i =>
            (i, ((tokenize q).map (fun t =>
                  if t ∈ tokenize ((ds.getD i dummyDoc).content) then
                    log (((ds.length : ℚ) - (nDocs ds t : ℚ) + 1/2) /
                        ((nDocs ds t : ℚ) + 1/2)) *
                      ((tokCount ds i t : ℚ) * (k1v + 1) /
                        ((tokCount ds i t : ℚ) +
                          k1v * (1 - bv + bv * ((tokLenAt ds i : ℚ) /
                            (((ds.map (fun d => (tokenize d.content).length)).sum : ℚ) /
                              (ds.length : ℚ))))))
                  else 0)).sum)))).filter (fun p => 0 < p.2)).take top_k).map
        (fun p => ({ content := (ds.getD p.1 dummyDoc).content,
                     metadata := (ds.getD p.1 dummyDoc).metadata,
                     score := p.2 } : SearchResult))) := by
    by_cases hds : ds = []
    · rw [hempty hds, hds]
      simp [sortDescBy]
    · have hne : (add_documents (initBM25 k1v bv) ds).documents.isEmpty = false := by
        rw [hdocs]
        simpa [List.isEmpty_iff] using hds
      have hscores : (List.range (add_documents (initBM25 k1v bv) ds).documents.length).map
          (fun doc_id =>
            (doc_id, (tokenize q).foldl
              (scoreStep log (add_documents (initBM25 k1v bv) ds) doc_id) 0)) =
          (List.range ds.length).map (fun i =>
            (i, ((tokenize q).map (fun t =>
                  if t ∈ tokenize ((ds.getD i dummyDoc).content) then
                    log (((ds.length : ℚ) - (nDocs ds t : ℚ) + 1/2) /
                        ((nDocs ds t : ℚ) + 1/2)) *
                      ((tokCount ds i t : ℚ) * (k1v + 1) /
                        ((tokCount ds i t : ℚ) +
                          k1v * (1 - bv + bv * ((tokLenAt ds i : ℚ) /
                            (((ds.map (fun d => (tokenize d.content).length)).sum : ℚ) /
                              (ds.length : ℚ))))))
                  else 0)).sum)) := by
        rw [hdocs]
        apply List.map_congr_left
        intro i hi
        rw [List.mem_range] at hi
        rw [built_score_eq k1v bv log ds q i hi]
      rw [search]
      simp only [hne, Bool.false_eq_true, if_false]
      rw [hscores]
      rw [snd_filter_take_comm _ (sortedDesc_sortDescBy (fun p : ℕ × ℚ => p.2) _) top_k]
      apply List.map_congr_left
      intro p _
      rw [hdocs]
  refine ⟨hmain, hempty, ?_⟩
  intro hnone
  rw [hmain]
  have hzero : ∀ i ∈ List.range ds.length,
      ((tokenize q).map (fun t =>
        if t ∈ tokenize ((ds.getD i dummyDoc).content) then
          log (((ds.length : ℚ) - (nDocs ds t : ℚ) + 1/2) / ((nDocs ds t : ℚ) + 1/2)) *
            ((tokCount ds i t : ℚ) * (k1v + 1) /
              ((tokCount ds i t : ℚ) +
                k1v * (1 - bv + bv * ((tokLenAt ds i : ℚ) /
                  (((ds.map (fun d => (tokenize d.content).length)).sum : ℚ) /
                    (ds.length : ℚ))))))
        else 0)).sum = 0 := by
    intro i hi
    rw [List.mem_range] at hi
    apply List.sum_eq_zero
    intro x hx
    rw [List.mem_map] at hx
    obtain ⟨t, ht, rfl⟩ := hx
    have hmem : ds.getD i dummyDoc ∈ ds := by
      rw [List.getD_eq_getElem ds dummyDoc hi]
      exact List.getElem_mem hi
    rw [if_neg (hnone t ht _ hmem)]
  have hfilter : (sortDescBy (fun p : ℕ × ℚ => p.2)
      ((List.range ds.length).map (fun i =>
        (i, ((tokenize q).map (fun t =>
              if t ∈ tokenize ((ds.getD i dummyDoc).content) then
                log (((ds.length : ℚ) - (nDocs ds t : ℚ) + 1/2) /
                    ((nDocs ds t : ℚ) + 1/2)) *
                  ((tokCount ds i t : ℚ) * (k1v + 1) /
                    ((tokCount ds i t : ℚ) +
                      k1v * (1 - bv + bv * ((tokLenAt ds i : ℚ) /
                        (((ds.map (fun d => (tokenize d.content).length)).sum : ℚ) /
                          (ds.length : ℚ))))))
              else 0)).sum)))).filter (fun p => 0 < p.2) = [] := by
    rw [List.filter_eq_nil_iff]
    intro p hp
    rw [mem_sortDescBy] at hp
    rw [List.mem_map] at hp
    obtain ⟨i, hi, rfl⟩ := hp
    simp only [decide_eq_true_eq]
    rw [hzero i hi]
    exact lt_irrefl 0
  rw [hfilter]
  simp

/-- Witness for C1: a query against the empty index and a query sharing no
    term with the indexed document both return the empty list. -/
theorem bm25_search_matches_spec_witness :
    search id (add_documents (initBM25 (3/2) (3/4)) []) "cat".toList 5 = [] ∧
    search id (add_documents (initBM25 (3/2) (3/4)) [⟨"the cat sat".toList, []⟩])
      "dog".toList 5 = [] := by
  constructor
  · exact (bm25_search_matches_spec (3/2) (3/4) id [] "cat".toList 5).2.1 rfl
  · exact (bm25_search_matches_spec (3/2) (3/4) id [⟨"the cat sat".toList, []⟩]
      "dog".toList 5).2.2 (by decide)

/-- Equality of the six fields of a BM25 state that the per-document
    processing reads and writes (everything except doc_count and
    avg_doc_length). -/
def sameData (s s' : BM25State) : Prop :=
  s.k1 = s'.k1 ∧ s.b = s'.b ∧ s.documents = s'.documents ∧
  s.doc_lengths = s'.doc_lengths ∧ s.term_freqs = s'.term_freqs ∧
  s.doc_freqs = s'.doc_freqs

theorem foldl_tfStep_congr (doc_id doc_id' : ℕ) (hd : doc_id = doc_id')
    (items : PyDict (List Char) ℕ) :
    ∀ (s s' : BM25State), s.term_freqs = s'.term_freqs → s.doc_freqs = s'.doc_freqs →
      (items.foldl (tfStep doc_id) s).term_freqs =
        (items.foldl (tfStep doc_id') s').term_freqs ∧
      (items.foldl (tfStep doc_id) s).doc_freqs =
        (items.foldl (tfStep doc_id') s').doc_freqs := by
  subst hd
  induction items with
  | nil => intro s s' h5 h6; exact ⟨h5, h6⟩
  | cons p ps ih =>
      intro s s' h5 h6
      rw [List.foldl_cons, List.foldl_cons]
      exact ih (tfStep doc_id s p) (tfStep doc_id s' p)
        (by simp [tfStep, h5]) (by simp [tfStep, h5, h6])

theorem addOneDoc_sameData (s s' : BM25State) (d : Document) (h : sameData s s') :
    sameData (addOneDoc s d) (addOneDoc s' d) := by
  obtain ⟨h1, h2, h3, h4, h5, h6⟩ := h
  simp only [addOneDoc]
  have hid : s.documents.length = s'.documents.length := by rw [h3]
  obtain ⟨f1, f2, f3, f4, _, _⟩ := foldl_tfStep_fields s.documents.length
    (termFreqOf (tokenize d.content))
    { s with
      documents := s.documents ++ [d],
      doc_lengths := dset s.doc_lengths s.documents.length (tokenize d.content).length }
  obtain ⟨g1, g2, g3, g4, _, _⟩ := foldl_tfStep_fields s'.documents.length
    (termFreqOf (tokenize d.content))
    { s' with
      documents := s'.documents ++ [d],
      doc_lengths := dset s'.doc_lengths s'.documents.length (tokenize d.content).length }
  have hcong := foldl_tfStep_congr s.documents.length s'.documents.length hid
    (termFreqOf (tokenize d.content))
    { s with
      documents := s.documents ++ [d],
      doc_lengths := dset s.doc_lengths s.documents.length (tokenize d.content).length }
    { s' with
      documents := s'.documents ++ [d],
      doc_lengths := dset s'.doc_lengths s'.documents.length (tokenize d.content).length }
    (by simpa using h5) (by simpa using h6)
  refine ⟨?_, ?_, ?_, ?_, hcong.1, hcong.2⟩
  · rw [f3, g3]; simpa using h1
  · rw [f4, g4]; simpa using h2
  · rw [f1, g1]; simp only; rw [h3]
  · rw [f2, g2]; simp only; rw [h4, hid]

theorem foldl_addOneDoc_sameData :
    ∀ (ds : List Document) (s s' : BM25State), sameData s s' →
      sameData (ds.foldl addOneDoc s) (ds.foldl addOneDoc s') := by
  intro ds
  induction ds with
  | nil => intro s s' h; exact h
  | cons d ds ih =>
      intro s s' h
      rw [List.foldl_cons, List.foldl_cons]
      exact ih _ _ (addOneDoc_sameData s s' d h)

theorem addOneDoc_avg (s : BM25State) (d : Document) :
    (addOneDoc s d).avg_doc_length = s.avg_doc_length := by
  simp only [addOneDoc]
  exact (foldl_tfStep_fields _ _ _).2.2.2.2.1

theorem foldl_addOneDoc_avg : ∀ (ds : List Document) (s : BM25State),
    (ds.foldl addOneDoc s).avg_doc_length = s.avg_doc_length := by
  intro ds
  induction ds with
  | nil => intro s; rfl
  | cons d ds ih =>
      intro s
      rw [List.foldl_cons, ih, addOneDoc_avg]

theorem addOneDoc_documents (s : BM25State) (d : Document) :
    (addOneDoc s d).documents = s.documents ++ [d] := by
  simp only [addOneDoc]
  exact (foldl_tfStep_fields _ _ _).1

theorem foldl_addOneDoc_documents : ∀ (ds : List Document) (s : BM25State),
    (ds.foldl addOneDoc s).documents = s.documents ++ ds := by
  intro ds
  induction ds with
  | nil => intro s; simp
  | cons d ds ih =>
      intro s
      rw [List.foldl_cons, ih, addOneDoc_documents, List.append_assoc]
      rfl

theorem addOneDoc_dl_len (s : BM25State) (d : Document) :
    s.doc_lengths.length ≤ (addOneDoc s d).doc_lengths.length := by
  simp only [addOneDoc]
  rw [(foldl_tfStep_fields _ _ _).2.1]
  exact length_le_length_dset _ _ _

theorem foldl_addOneDoc_dl_len : ∀ (ds : List Document) (s : BM25State),
    s.doc_lengths.length ≤ (ds.foldl addOneDoc s).doc_lengths.length := by
  intro ds
  induction ds with
  | nil => intro s; exact le_refl _
  | cons d ds ih =>
      intro s
      rw [List.foldl_cons]
      exact le_trans (addOneDoc_dl_len s d) (ih (addOneDoc s d))

theorem recomputeStats_sameData (s : BM25State) : sameData (recomputeStats s) s :=
  ⟨rfl, rfl, rfl, rfl, rfl, rfl⟩

theorem recomputeStats_avg (s : BM25State) :
    (recomputeStats s).avg_doc_length =
      if s.doc_lengths ≠ [] then (sumVals s.doc_lengths : ℚ) / (s.doc_lengths.length : ℚ)
      else s.avg_doc_length := rfl

theorem add_documents_batch (st : BM25State) (d1 d2 : List Document) :
    add_documents (add_documents st d1) d2 = add_documents st (d1 ++ d2) := by
  rw [add_documents, add_documents, add_documents, List.foldl_append]
  have hsd : sameData (d2.foldl addOneDoc (recomputeStats (d1.foldl addOneDoc st)))
      (d2.foldl addOneDoc (d1.foldl addOneDoc st)) :=
    foldl_addOneDoc_sameData d2 _ _ (recomputeStats_sameData (d1.foldl addOneDoc st))
  obtain ⟨h1, h2, h3, h4, h5, h6⟩ := hsd
  have hA : (d2.foldl addOneDoc (recomputeStats (d1.foldl addOneDoc st))).avg_doc_length =
      (recomputeStats (d1.foldl addOneDoc st)).avg_doc_length := foldl_addOneDoc_avg d2 _
  have hB : (d2.foldl addOneDoc (d1.foldl addOneDoc st)).avg_doc_length =
      (d1.foldl addOneDoc st).avg_doc_length := foldl_addOneDoc_avg d2 _
  ext1
  · show (recomputeStats _).k1 = (recomputeStats _).k1
    simpa [recomputeStats] using h1
  · show (recomputeStats _).b = (recomputeStats _).b
    simpa [recomputeStats] using h2
  · show (recomputeStats _).documents = (recomputeStats _).documents
    simpa [recomputeStats] using h3
  · show (recomputeStats _).avg_doc_length = (recomputeStats _).avg_doc_length
    rw [recomputeStats_avg, recomputeStats_avg, h4]
    by_cases hdl : (d2.foldl addOneDoc (d1.foldl addOneDoc st)).doc_lengths = []
    · rw [if_neg (by simp [hdl]), if_neg (by simp [hdl]), hA, hB, recomputeStats_avg]
      have hu : (d1.foldl addOneDoc st).doc_lengths = [] := by
        have hle := foldl_addOneDoc_dl_len d2 (recomputeStats (d1.foldl addOneDoc st))
        have hlen : (d2.foldl addOneDoc
            (recomputeStats (d1.foldl addOneDoc st))).doc_lengths.length = 0 := by
          rw [h4, hdl]
          rfl
        have hz : (recomputeStats (d1.foldl addOneDoc st)).doc_lengths.length = 0 := by
          omega
        have hrw : (recomputeStats (d1.foldl addOneDoc st)).doc_lengths =
            (d1.foldl addOneDoc st).doc_lengths := rfl
        rw [hrw] at hz
        exact List.eq_nil_of_length_eq_zero hz
      rw [if_neg (by simp [hu])]
    · rw [if_pos hdl, if_pos hdl]
  · show (recomputeStats _).doc_count = (recomputeStats _).doc_count
    simpa [recomputeStats] using congrArg List.length h3
  · show (recomputeStats _).term_freqs = (recomputeStats _).term_freqs
    simpa [recomputeStats] using h5
  · show (recomputeStats _).doc_freqs = (recomputeStats _).doc_freqs
    simpa [recomputeStats] using h6
  · show (recomputeStats _).doc_lengths = (recomputeStats _).doc_lengths
    simpa [recomputeStats] using h4

theorem tokLenAt_append_left (ds e : List Document) (i : ℕ) (h : i < ds.length) :
    tokLenAt (ds ++ e) i = tokLenAt ds i := by
  unfold tokLenAt
  rw [List.getD_append ds e dummyDoc i h]

theorem tokCount_append_left (ds e : List Document) (i : ℕ) (t : List Char)
    (h : i < ds.length) : tokCount (ds ++ e) i t = tokCount ds i t := by
  unfold tokCount
  rw [List.getD_append ds e dummyDoc i h]

/-- C6: successive add_documents calls produce exactly the state of a single
    call on the concatenated batch (for every starting state); documents only
    grow by appending (no removal operation exists); avg_doc_length after a
    call is the mean token count over all documents added so far; and the
    per-document statistics stored for earlier documents (doc_lengths and
    term_freqs entries) are never modified by later calls. -/
theorem bm25_add_documents_incremental_batch :
    (∀ (st : BM25State) (d1 d2 : List Document),
      add_documents (add_documents st d1) d2 = add_documents st (d1 ++ d2)) ∧
    (∀ (st : BM25State) (ds : List Document),
      (add_documents st ds).documents = st.documents ++ ds) ∧
    (∀ (k1v bv : ℚ) (ds : List Document), ds ≠ [] →
      (add_documents (initBM25 k1v bv) ds).avg_doc_length =
        ((ds.map (fun d => (tokenize d.content).length)).sum : ℚ) / (ds.length : ℚ)) ∧
    (∀ (k1v bv : ℚ) (ds0 ds1 : List Document) (i : ℕ), i < ds0.length →
      dlookup (add_documents (add_documents (initBM25 k1v bv) ds0) ds1).doc_lengths i =
        dlookup (add_documents (initBM25 k1v bv) ds0).doc_lengths i ∧
      (∀ t,
        dlookup2 (add_documents (add_documents (initBM25 k1v bv) ds0) ds1).term_freqs t i =
          dlookup2 (add_documents (initBM25 k1v bv) ds0).term_freqs t i)) := by
  refine ⟨add_documents_batch, ?_, built_avg, ?_⟩
  · intro st ds
    have h : (add_documents st ds).documents = (ds.foldl addOneDoc st).documents := rfl
    rw [h, foldl_addOneDoc_documents]
  · intro k1v bv ds0 ds1 i hi
    rw [add_documents_batch]
    obtain ⟨_, _, _, hdl01, htf01, _⟩ := BMInv_built k1v bv (ds0 ++ ds1)
    obtain ⟨_, _, _, hdl0, htf0, _⟩ := BMInv_built k1v bv ds0
    have hi' : i < (ds0 ++ ds1).length := by
      rw [List.length_append]; omega
    constructor
    · rw [hdl01, hdl0, dlookup_range_map, dlookup_range_map, if_pos hi, if_pos hi',
        tokLenAt_append_left ds0 ds1 i hi]
    · intro t
      rw [htf01 t i, htf0 t i, tokCount_append_left ds0 ds1 i t hi]
      by_cases hc : 0 < tokCount ds0 i t
      · rw [if_pos ⟨hi', hc⟩, if_pos ⟨hi, hc⟩]
      · rw [if_neg (fun hcc => hc hcc.2), if_neg (fun hcc => hc hcc.2)]

/-- Witness for C6: a two-batch build of a small index agrees with the
    single-batch build on a stored document length, and the mean document
    length is as computed. -/
theorem bm25_add_documents_incremental_batch_witness :
    (add_documents (initBM25 (3/2) (3/4))
        [⟨"a b".toList, []⟩, ⟨"c".toList, []⟩]).avg_doc_length = 3/2 ∧
    dlookup (add_documents (add_documents (initBM25 (3/2) (3/4)) [⟨"a b".toList, []⟩])
        [⟨"c".toList, []⟩]).doc_lengths 0 =
      dlookup (add_documents (initBM25 (3/2) (3/4)) [⟨"a b".toList, []⟩]).doc_lengths 0 := by
  constructor
  · rw [bm25_add_documents_incremental_batch.2.2.1 (3/2) (3/4)
      [⟨"a b".toList, []⟩, ⟨"c".toList, []⟩] (by decide)]
    have h1 : (tokenize ['a', ' ', 'b']).length = 2 := by decide
    have h2 : (tokenize ['c']).length = 1 := by decide
    simp [h1, h2]
  · exact (bm25_add_documents_incremental_batch.2.2.2 (3/2) (3/4)
      [⟨"a b".toList, []⟩] [⟨"c".toList, []⟩] 0 (by decide)).1

/-- Python max over a non-empty list (combine_results guards emptiness before
    calling it; the [] case is unreachable there). -/
def pyMax : List ℚ → ℚ
  | [] => 0
  | x :: xs => xs.foldl max x

/-- Maximum used for normalization in _combine_results: max of the score
    list when non-empty else 1.0, then 1.0 when that maximum is 0. -/
def guardedMax (scores : List ℚ) : ℚ :=
  let m := if scores.isEmpty then 1 else pyMax scores
  if m = 0 then 1 else m

/-- Combined result record of HybridRetriever._combine_results. -/
structure HybridResult where
  content : List Char
  metadata : PyDict (List Char) (List Char)
  vector_score : ℚ
  keyword_score : ℚ
  hybrid_score : ℚ
deriving DecidableEq

/-- Step of the vector-results loop of _combine_results: unconditional dict
    assignment keyed by content. -/
def vstep (w maxV : ℚ) (m : PyDict (List Char) HybridResult) (r : SearchResult) :
    PyDict (List Char) HybridResult :=
  dset m r.content
    { content := r.content, metadata := r.metadata,
      vector_score := r.score / maxV,
      keyword_score := 0,
      hybrid_score := (1 - w) * (r.score / maxV) }

/-- Step of the keyword-results loop of _combine_results: update the existing
    entry for the content in place (overwriting keyword_score and adding the
    weighted contribution to hybrid_score) or insert a fresh entry with a 0.0
    vector score. -/
def kstep (w maxK : ℚ) (m : PyDict (List Char) HybridResult) (r : SearchResult) :
    PyDict (List Char) HybridResult :=
  let normalized := r.score / maxK
  match dlookup m r.content with
  | some e =>
      dset m r.content
        { e with keyword_score := normalized, hybrid_score := e.hybrid_score + w * normalized }
  | none =>
      dset m r.content
        { content := r.content, metadata := r.metadata,
          vector_score := 0, keyword_score := normalized,
          hybrid_score := w * normalized }

/-- HybridRetriever._combine_results: normalize both score lists by their
    guarded maxima, merge into a content-keyed dict (vector results first,
    then keyword results), sort the values by hybrid_score descending and
    truncate to top_k. -/
def combine_results (w : ℚ) (vector_results keyword_results : List SearchResult)
    (top_k : ℕ) : List HybridResult :=
  if vector_results.isEmpty && keyword_results.isEmpty then []
  else
    let maxV := guardedMax (vector_results.map (fun r => r.score))
    let maxK := guardedMax (keyword_results.map (fun r => r.score))
    let m1 := vector_results.foldl (vstep w maxV) []
    let m2 := keyword_results.foldl (kstep w maxK) m1
    (sortDescBy (fun r => r.hybrid_score) (m2.map Prod.snd)).take top_k

/-- HybridRetriever.hybrid_search: 2*top_k candidates from the external
    vector store (parameter vq) and from the BM25 index, then combined. -/
def hybrid_search (vq : List Char → ℕ → List SearchResult) (log : ℚ → ℚ)
    (st : BM25State) (w : ℚ) (query : List Char) (top_k : ℕ) : List HybridResult :=
  combine_results w (vq query (top_k * 2)) (search log st query (top_k * 2)) top_k

theorem dlookup_some_mem {σ α : Type} [DecidableEq σ] (m : PyDict σ α) (k : σ) (e : α)
    (h : dlookup m k = some e) : (k, e) ∈ m := by
  induction m with
  | nil => simp [dlookup] at h
  | cons hd tl ih =>
      obtain ⟨k₀, v₀⟩ := hd
      by_cases h0 : k₀ = k
      · subst h0
        simp [dlookup] at h
        simp [h]
      · simp only [dlookup, h0, if_neg, not_false_iff] at h
        exact List.mem_cons_of_mem _ (ih h)

theorem mem_dlookup_of_nodup {σ α : Type} [DecidableEq σ] (m : PyDict σ α)
    (hnd : (dkeys m).Nodup) (k : σ) (e : α) (h : (k, e) ∈ m) : dlookup m k = some e := by
  induction m with
  | nil => simp at h
  | cons hd tl ih =>
      obtain ⟨k₀, v₀⟩ := hd
      simp only [dkeys, List.map, List.nodup_cons] at hnd
      rcases List.mem_cons.mp h with heq | hmem
      · injection heq with heq1 heq2
        subst heq1
        subst heq2
        simp [dlookup]
      · by_cases h0 : k₀ = k
        · subst h0
          exfalso
          apply hnd.1
          have : k₀ ∈ dkeys tl := by
            simp only [dkeys, List.mem_map]
            exact ⟨(k₀, e), hmem, rfl⟩
          simpa [dkeys] using this
        · simp only [dlookup, h0, if_neg, not_false_iff]
          exact ih hnd.2 hmem

theorem mem_dset_sub {σ α : Type} [DecidableEq σ] (m : PyDict σ α) (k : σ) (v : α)
    (p : σ × α) (h : p ∈ dset m k v) : p = (k, v) ∨ p ∈ m := by
  induction m with
  | nil => simpa [dset] using h
  | cons hd tl ih =>
      obtain ⟨k₀, v₀⟩ := hd
      by_cases h0 : k₀ = k
      · subst h0
        simp only [dset, if_pos] at h
        rcases List.mem_cons.mp h with heq | hmem
        · exact Or.inl heq
        · exact Or.inr (List.mem_cons_of_mem _ hmem)
      · simp only [dset, h0, if_neg, not_false_iff] at h
        rcases List.mem_cons.mp h with heq | hmem
        · exact Or.inr (heq ▸ List.mem_cons_self _ _)
        · rcases ih hmem with h1 | h2
          · exact Or.inl h1
          · exact Or.inr (List.mem_cons_of_mem _ h2)

/-- Every stored hybrid entry has its own content as its dict key. -/
def ContentKeyed (m : PyDict (List Char) HybridResult) : Prop :=
  ∀ p ∈ m, (p.2).content = p.1

theorem contentKeyed_dset (m : PyDict (List Char) HybridResult) (k : List Char)
    (e : HybridResult) (h : ContentKeyed m) (he : e.content = k) :
    ContentKeyed (dset m k e) := by
  intro p hp
  rcases mem_dset_sub m k e p hp with rfl | hm
  · exact he
  · exact h p hm

theorem contentKeyed_vstep_fold (w maxV : ℚ) :
    ∀ (rs : List SearchResult) (m : PyDict (List Char) HybridResult),
      ContentKeyed m → ContentKeyed (rs.foldl (vstep w maxV) m) := by
  intro rs
  induction rs with
  | nil => intro m h; exact h
  | cons r rs ih =>
      intro m h
      rw [List.foldl_cons]
      exact ih _ (contentKeyed_dset m r.content _ h rfl)

theorem contentKeyed_kstep_fold (w maxK : ℚ) :
    ∀ (rs : List SearchResult) (m : PyDict (List Char) HybridResult),
      ContentKeyed m → ContentKeyed (rs.foldl (kstep w maxK) m) := by
  intro rs
  induction rs with
  | nil => intro m h; exact h
  | cons r rs ih =>
      intro m h
      rw [List.foldl_cons]
      apply ih
      rw [kstep]
      cases hl : dlookup m r.content with
      | none =>
          simp only [hl]
          exact contentKeyed_dset m r.content _ h rfl
      | some e =>
          simp only [hl]
          refine contentKeyed_dset m r.content _ h ?_
          show e.content = r.content
          exact h (r.content, e) (dlookup_some_mem m r.content e hl)

theorem nodup_dkeys_vstep_fold (w maxV : ℚ) :
    ∀ (rs : List SearchResult) (m : PyDict (List Char) HybridResult),
      (dkeys m).Nodup → (dkeys (rs.foldl (vstep w maxV) m)).Nodup := by
  intro rs
  induction rs with
  | nil => intro m h; exact h
  | cons r rs ih =>
      intro m h
      rw [List.foldl_cons]
      exact ih _ (nodup_dkeys_dset m r.content _ h)

theorem nodup_dkeys_kstep_fold (w maxK : ℚ) :
    ∀ (rs : List SearchResult) (m : PyDict (List Char) HybridResult),
      (dkeys m).Nodup → (dkeys (rs.foldl (kstep w maxK) m)).Nodup := by
  intro rs
  induction rs with
  | nil => intro m h; exact h
  | cons r rs ih =>
      intro m h
      rw [List.foldl_cons]
      apply ih
      rw [kstep]
      cases hl : dlookup m r.content with
      | none => simpa only [hl] using nodup_dkeys_dset m r.content _ h
      | some e => simpa only [hl] using nodup_dkeys_dset m r.content _ h

theorem dlookup_vstep_fold (w maxV : ℚ) :
    ∀ (rs : List SearchResult), (rs.map (fun r => r.content)).Nodup →
      ∀ (init : PyDict (List Char) HybridResult) (c : List Char),
      dlookup (rs.foldl (vstep w maxV) init) c =
        match rs.find? (fun r => r.content = c) with
        | some r => some
            { content := r.content, metadata := r.metadata,
              vector_score := r.score / maxV, keyword_score := 0,
              hybrid_score := (1 - w) * (r.score / maxV) }
        | none => dlookup init c := by
  intro rs
  induction rs with
  | nil => intro _ init c; simp
  | cons r rs ih =>
      intro hnd init c
      simp only [List.map, List.nodup_cons] at hnd
      rw [List.foldl_cons, ih hnd.2, List.find?_cons]
      by_cases hc : r.content = c
      · have hnone : rs.find? (fun r => decide (r.content = c)) = none := by
          rw [List.find?_eq_none]
          intro x hx
          simp only [decide_eq_true_eq]
          intro hxc
          apply hnd.1
          rw [List.mem_map]
          exact ⟨x, hx, by rw [hxc, hc]⟩
        have hd : decide (r.content = c) = true := decide_eq_true hc
        rw [hnone, hd]
        simp [vstep, dlookup_dset, hc]
      · have hd : decide (r.content = c) = false := decide_eq_false hc
        rw [hd]
        cases hf : rs.find? (fun r => decide (r.content = c)) with
        | some r' => simp [hf]
        | none => simp [hf, vstep, dlookup_dset, hc]

theorem dlookup_kstep_fold (w maxK : ℚ) :
    ∀ (rs : List SearchResult), (rs.map (fun r => r.content)).Nodup →
      ∀ (init : PyDict (List Char) HybridResult) (c : List Char),
      dlookup (rs.foldl (kstep w maxK) init) c =
        match rs.find? (fun r => r.content = c) with
        | some r =>
            match dlookup init c with
            | some e => some
                { e with keyword_score := r.score / maxK,
                         hybrid_score := e.hybrid_score + w * (r.score / maxK) }
            | none => some
                { content := r.content, metadata := r.metadata,
                  vector_score := 0, keyword_score := r.score / maxK,
                  hybrid_score := w * (r.score / maxK) }
        | none => dlookup init c := by
  intro rs
  induction rs with
  | nil => intro _ init c; simp
  | cons r rs ih =>
      intro hnd init c
      simp only [List.map, List.nodup_cons] at hnd
      rw [List.foldl_cons, ih hnd.2, List.find?_cons]
      by_cases hc : r.content = c
      · have hnone : rs.find? (fun r => decide (r.content = c)) = none := by
          rw [List.find?_eq_none]
          intro x hx
          simp only [decide_eq_true_eq]
          intro hxc
          apply hnd.1
          rw [List.mem_map]
          exact ⟨x, hx, by rw [hxc, hc]⟩
        have hd : decide (r.content = c) = true := decide_eq_true hc
        rw [hnone, hd]
        subst hc
        cases hl : dlookup init r.content with
        | none => simp [kstep, hl, dlookup_dset]
        | some e => simp [kstep, hl, dlookup_dset]
      · have hd : decide (r.content = c) = false := decide_eq_false hc
        rw [hd]
        have hkl : dlookup (kstep w maxK init r) c = dlookup init c := by
          rw [kstep]
          cases hl : dlookup init r.content with
          | none => simp only [hl]; rw [dlookup_dset]; simp [hc]
          | some e => simp only [hl]; rw [dlookup_dset]; simp [hc]
        cases hf : rs.find? (fun r => decide (r.content = c)) with
        | some r' => simp [hf, hkl]
        | none => simp [hf, hkl]

theorem hybrid_entry_fields (w : ℚ) (vres kres : List SearchResult)
    (hv : (vres.map (fun r => r.content)).Nodup)
    (hk : (kres.map (fun r => r.content)).Nodup) (c : List Char) (e : HybridResult)
    (h : dlookup
        (kres.foldl (kstep w (guardedMax (kres.map (fun r => r.score))))
          (vres.foldl (vstep w (guardedMax (vres.map (fun r => r.score)))) [])) c =
      some e) :
    e.vector_score =
      (match vres.find? (fun r => r.content = c) with
       | some r => r.score / guardedMax (vres.map (fun r => r.score))
       | none => 0) ∧
    e.keyword_score =
      (match kres.find? (fun r => r.content = c) with
       | some r => r.score / guardedMax (kres.map (fun r => r.score))
       | none => 0) ∧
    e.hybrid_score = (1 - w) * e.vector_score + w * e.keyword_score ∧
    ((∃ rv ∈ vres, rv.content = c) ∨ (∃ rk ∈ kres, rk.content = c)) := by
  rw [dlookup_kstep_fold w (guardedMax (kres.map (fun r => r.score))) kres hk,
    dlookup_vstep_fold w (guardedMax (vres.map (fun r => r.score))) vres hv] at h
  cases hfk : kres.find? (fun r => decide (r.content = c)) with
  | some rk =>
      have hmemk : ∃ r ∈ kres, r.content = c := by
        refine ⟨rk, List.mem_of_find?_eq_some hfk, ?_⟩
        have := List.find?_some hfk
        simpa using this
      cases hfv : vres.find? (fun r => decide (r.content = c)) with
      | some rv =>
          have hmemv : ∃ r ∈ vres, r.content = c := by
            refine ⟨rv, List.mem_of_find?_eq_some hfv, ?_⟩
            have := List.find?_some hfv
            simpa using this
          rw [hfk, hfv] at h
          simp only [Option.some.injEq] at h
          subst h
          refine ⟨rfl, rfl, by ring, Or.inl hmemv⟩
      | none =>
          rw [hfk, hfv] at h
          simp only [dlookup, Option.some.injEq] at h
          subst h
          refine ⟨rfl, rfl, by ring, Or.inr hmemk⟩
  | none =>
      cases hfv : vres.find? (fun r => decide (r.content = c)) with
      | some rv =>
          have hmemv : ∃ r ∈ vres, r.content = c := by
            refine ⟨rv, List.mem_of_find?_eq_some hfv, ?_⟩
            have := List.find?_some hfv
            simpa using this
          rw [hfk, hfv] at h
          simp only [Option.some.injEq] at h
          subst h
          refine ⟨rfl, rfl, by ring, Or.inl hmemv⟩
      | none =>
          rw [hfk, hfv] at h
          simp [dlookup] at h

/-- C2 (amended): for vector and keyword result lists whose content strings
    are duplicate-free within each list, _combine_results normalizes each
    list by its own maximum score (1.0 substituted when the maximum is 0 or
    the list empty), merges by exact content equality so each content appears
    at most once, gives a missing source a 0.0 contribution, assigns
    hybrid_score = (1-w)*normalized_vector + w*normalized_keyword, and
    returns the top-k sorted descending by hybrid_score.  The duplicate-free
    hypothesis is forced by the counterexample
    hybrid_combine_duplicate_counterexample: a repeated content inside the
    keyword list accumulates its weighted contribution once per occurrence,
    breaking the stated formula. -/
theorem hybrid_combine_matches_spec (w : ℚ) (vres kres : List SearchResult) (top_k : ℕ)
    (hv : (vres.map (fun r => r.content)).Nodup)
    (hk : (kres.map (fun r => r.content)).Nodup)
    (nv nk : List Char → ℚ)
    (hnv : nv = fun c =>
      match vres.find? (fun r => r.content = c) with
      | some r => r.score / guardedMax (vres.map (fun r => r.score))
      | none => 0)
    (hnk : nk = fun c =>
      match kres.find? (fun r => r.content = c) with
      | some r => r.score / guardedMax (kres.map (fun r => r.score))
      | none => 0) :
    ((combine_results w vres kres top_k).map (fun r => r.content)).Nodup ∧
    (∀ r ∈ combine_results w vres kres top_k,
      r.vector_score = nv r.content ∧ r.keyword_score = nk r.content ∧
      r.hybrid_score = (1 - w) * nv r.content + w * nk r.content) ∧
    SortedDesc (fun r => r.hybrid_score) (combine_results w vres kres top_k) ∧
    (combine_results w vres kres top_k).length ≤ top_k ∧
    (∀ r ∈ combine_results w vres kres top_k,
      (∃ rv ∈ vres, rv.content = r.content) ∨ (∃ rk ∈ kres, rk.content = r.content)) ∧
    (∀ c, ((∃ rv ∈ vres, rv.content = c) ∨ (∃ rk ∈ kres, rk.content = c)) →
      (∃ r ∈ combine_results w vres kres top_k, r.content = c) ∨
        ((combine_results w vres kres top_k).length = top_k ∧
          ∀ r ∈ combine_results w vres kres top_k,
            (1 - w) * nv c + w * nk c ≤ r.hybrid_score)) := by
  by_cases hempty : (vres.isEmpty && kres.isEmpty) = true
  · have hout : combine_results w vres kres top_k = [] := by
      rw [combine_results, if_pos hempty]
    rw [hout]
    simp only [Bool.and_eq_true, List.isEmpty_iff] at hempty
    refine ⟨by simp, by simp, by simp [SortedDesc], by simp, by simp, ?_⟩
    intro c hc
    exfalso
    rcases hc with ⟨rv, hrv, _⟩ | ⟨rk, hrk, _⟩
    · rw [hempty.1] at hrv; simp at hrv
    · rw [hempty.2] at hrk; simp at hrk
  · have hout : combine_results w vres kres top_k =
        (sortDescBy (fun r => r.hybrid_score)
          ((kres.foldl (kstep w (guardedMax (kres.map (fun r => r.score))))
            (vres.foldl (vstep w (guardedMax (vres.map (fun r => r.score)))) [])).map
              Prod.snd)).take top_k := by
      rw [combine_results, if_neg hempty]
    set m2 := kres.foldl (kstep w (guardedMax (kres.map (fun r => r.score))))
      (vres.foldl (vstep w (guardedMax (vres.map (fun r => r.score)))) []) with hm2
    have hnodup2 : (dkeys m2).Nodup := by
      rw [hm2]
      exact nodup_dkeys_kstep_fold _ _ kres _
        (nodup_dkeys_vstep_fold _ _ vres [] (by simp [dkeys]))
    have hck : ContentKeyed m2 := by
      rw [hm2]
      exact contentKeyed_kstep_fold _ _ kres _
        (contentKeyed_vstep_fold _ _ vres [] (by intro p hp; simp at hp))
    have hval : ∀ r ∈ m2.map Prod.snd,
        r.vector_score = nv r.content ∧ r.keyword_score = nk r.content ∧
        r.hybrid_score = (1 - w) * nv r.content + w * nk r.content ∧
        ((∃ rv ∈ vres, rv.content = r.content) ∨ (∃ rk ∈ kres, rk.content = r.content)) := by
      intro r hr
      rw [List.mem_map] at hr
      obtain ⟨p, hp, rfl⟩ := hr
      have hc : (p.2).content = p.1 := hck p hp
      have hlk : dlookup m2 p.1 = some p.2 := by
        apply mem_dlookup_of_nodup m2 hnodup2
        exact (Prod.mk.eta ▸ hp)
      obtain ⟨e1, e2, e3, e4⟩ := hybrid_entry_fields w vres kres hv hk p.1 p.2 hlk
      rw [hnv, hnk]
      simp only [hc]
      exact ⟨e1, e2, by rw [e3, e1, e2], e4⟩
    have hmapc : (m2.map Prod.snd).map (fun r => r.content) = dkeys m2 := by
      rw [List.map_map, dkeys]
      exact List.map_congr_left (fun p hp => hck p hp)
    have hperm := perm_sortDescBy (fun r : HybridResult => r.hybrid_score) (m2.map Prod.snd)
    have hsortnodup : ((sortDescBy (fun r : HybridResult => r.hybrid_score)
        (m2.map Prod.snd)).map (fun r => r.content)).Nodup := by
      have := (hperm.map (fun r => r.content)).nodup_iff
      rw [this, hmapc]
      exact hnodup2
    refine ⟨?_, ?_, ?_, ?_, ?_, ?_⟩
    · rw [hout, List.map_take]
      exact hsortnodup.sublist (List.take_sublist _ _)
    · intro r hr
      rw [hout] at hr
      have hr2 : r ∈ m2.map Prod.snd := by
        rw [← mem_sortDescBy (fun r : HybridResult => r.hybrid_score)]
        exact List.take_subset _ _ hr
      exact ⟨(hval r hr2).1, (hval r hr2).2.1, (hval r hr2).2.2.1⟩
    · rw [hout]
      exact (sortedDesc_sortDescBy _ _).sublist (List.take_sublist _ _)
    · rw [hout]
      exact List.length_take_le _ _
    · intro r hr
      rw [hout] at hr
      have hr2 : r ∈ m2.map Prod.snd := by
        rw [← mem_sortDescBy (fun r : HybridResult => r.hybrid_score)]
        exact List.take_subset _ _ hr
      exact (hval r hr2).2.2.2
    · intro c hc
      have hlk : ∃ e, dlookup m2 c = some e := by
        rw [hm2, dlookup_kstep_fold w (guardedMax (kres.map (fun r => r.score))) kres hk,
          dlookup_vstep_fold w (guardedMax (vres.map (fun r => r.score))) vres hv]
        rcases hc with ⟨rv, hrv, hrvc⟩ | ⟨rk, hrk, hrkc⟩
        · have hfv : vres.find? (fun r => decide (r.content = c)) ≠ none := by
            intro hnone
            rw [List.find?_eq_none] at hnone
            have hthis := hnone rv hrv
            simp [hrvc] at hthis
          obtain ⟨rv', hrv'⟩ := Option.ne_none_iff_exists'.mp hfv
          rw [hrv']
          cases hfk : kres.find? (fun r => decide (r.content = c)) <;> simp
        · have hfk : kres.find? (fun r => decide (r.content = c)) ≠ none := by
            intro hnone
            rw [List.find?_eq_none] at hnone
            have hthis := hnone rk hrk
            simp [hrkc] at hthis
          obtain ⟨rk', hrk'⟩ := Option.ne_none_iff_exists'.mp hfk
          rw [hrk']
          cases hfv : vres.find? (fun r => decide (r.content = c)) <;>
            cases hl0 : dlookup [] c <;> simp [dlookup] at hl0 ⊢
      obtain ⟨e, he⟩ := hlk
      have hpe : (c, e) ∈ m2 := dlookup_some_mem m2 c e he
      have hec : e.content = c := hck (c, e) hpe
      have hev : e ∈ m2.map Prod.snd := by
        rw [List.mem_map]
        exact ⟨(c, e), hpe, rfl⟩
      have hes : e ∈ sortDescBy (fun r : HybridResult => r.hybrid_score) (m2.map Prod.snd) := by
        rw [mem_sortDescBy]
        exact hev
      by_cases hetake : e ∈ (sortDescBy (fun r : HybridResult => r.hybrid_score)
          (m2.map Prod.snd)).take top_k
      · left
        rw [hout]
        exact ⟨e, hetake, hec⟩
      · right
        have hsplit : e ∈ (sortDescBy (fun r : HybridResult => r.hybrid_score)
            (m2.map Prod.snd)).take top_k ++
            (sortDescBy (fun r : HybridResult => r.hybrid_score)
              (m2.map Prod.snd)).drop top_k := by
          rw [List.take_append_drop]
          exact hes
        have hedrop : e ∈ (sortDescBy (fun r : HybridResult => r.hybrid_score)
            (m2.map Prod.snd)).drop top_k := by
          rcases List.mem_append.mp hsplit with h1 | h2
          · exact absurd h1 hetake
          · exact h2
        have hlen : top_k < (sortDescBy (fun r : HybridResult => r.hybrid_score)
            (m2.map Prod.snd)).length := by
          by_contra hle
          push_neg at hle
          rw [List.drop_eq_nil_of_le hle] at hedrop
          simp at hedrop
        constructor
        · rw [hout, List.length_take]
          omega
        · intro r hr
          rw [hout] at hr
          have hdom := take_dominates_of_sortedDesc (fun r : HybridResult => r.hybrid_score)
            _ (sortedDesc_sortDescBy _ (m2.map Prod.snd)) top_k r hr e hedrop
          have hfe := hval e hev
          have : e.hybrid_score = (1 - w) * nv c + w * nk c := by
            rw [hfe.2.2.1, hec]
          rw [← this]
          exact hdom

/-- Counterexample to C2 as stated: with an empty vector list and the same
    content twice in the keyword list (two BM25 hits with identical content
    strings), the single output entry has hybrid_score 1, while the claimed
    formula (1-w)*normalized_vector + w*normalized_keyword gives 1/2 at
    w = 1/2: each keyword occurrence adds its weighted contribution again. -/
theorem hybrid_combine_duplicate_counterexample :
    (combine_results (1/2) [] [⟨['a'], [], 1⟩, ⟨['a'], [], 1⟩] 5).map
        (fun r => (r.vector_score, r.keyword_score, r.hybrid_score)) = [(0, 1, 1)] ∧
    ((1 : ℚ) ≠ (1 - 1/2) * 0 + (1/2) * 1) := by
  constructor
  · simp only [combine_results, guardedMax, pyMax, List.map, List.foldl, vstep, kstep,
      dlookup, dset, sortDescBy, insertDescBy, List.take]
    norm_num
  · norm_num

/-- Witness for C2: on duplicate-free result lists the combination is
    content-deduplicated and sorted descending by hybrid score. -/
theorem hybrid_combine_matches_spec_witness :
    ((combine_results (1/2) [⟨['a'], [], 2⟩, ⟨['b'], [], 1⟩]
        [⟨['b'], [], 3⟩, ⟨['c'], [], 1⟩] 5).map (fun r => r.content)).Nodup ∧
    SortedDesc (fun r => r.hybrid_score)
      (combine_results (1/2) [⟨['a'], [], 2⟩, ⟨['b'], [], 1⟩]
        [⟨['b'], [], 3⟩, ⟨['c'], [], 1⟩] 5) := by
  have h := hybrid_combine_matches_spec (1/2) [⟨['a'], [], 2⟩, ⟨['b'], [], 1⟩]
    [⟨['b'], [], 3⟩, ⟨['c'], [], 1⟩] 5 (by decide) (by decide) _ _ rfl rfl
  exact ⟨h.1, h.2.2.1⟩

/-! ### Citation engine — `src/nexusrag/reasoning/citation.py` -/

/-- A context document handed to `verify_claim`.  The code reads only
    `doc.get("content", "")`, so the model keeps just the content string; a
    dict without the key behaves as the empty string. -/
structure CtxDoc where
  content : List Char
deriving DecidableEq

/-- The `type` field of an evidence entry. -/
inductive EvType where
  | direct_match
  | entity_match
deriving DecidableEq

/-- One supporting-evidence dict built by `verify_claim`. -/
structure Evidence where
  document_id : List Char
  content : List Char
  score : ℚ
  type : EvType
deriving DecidableEq

/-- The verification-result dict returned by `verify_claim`. -/
structure VerificationResult where
  claim : List Char
  verified : Bool
  confidence : ℚ
  supporting_evidence : List Evidence
  contradicting_evidence : List Evidence
  timestamp : List Char
deriving DecidableEq

/-- Scanner for the quoted-phrase regex of `_extract_entities` (a double
    quote, one or more non-quote characters, a closing double quote, with
    the group capturing the inner characters).  The state is `none` outside
    a candidate match and `some acc` after an opening quote, `acc` holding
    the inner characters read so far in reverse.  A quote met on an empty
    group cannot close it (the group needs at least one character), so the
    engine restarts with that quote as a new opening quote; an unclosed
    opening quote at the end of the text yields no match. -/
def quotedAux : List Char → Option (List Char) → List (List Char)
  | [], _ => []
  | c :: cs, none =>
      if c = '"' then quotedAux cs (some []) else quotedAux cs none
  | c :: cs, some acc =>
      if c = '"' then
        if acc.isEmpty then quotedAux cs (some [])
        else acc.reverse :: quotedAux cs none
      else quotedAux cs (some (c :: acc))

/-- All matches of the quoted-phrase regex, in text order. -/
def quotedPhrases (text : List Char) : List (List Char) :=
  quotedAux text none

/-- Shape test for the capitalized-word regex of `_extract_entities`: one
    ASCII uppercase letter followed by one or more ASCII lowercase letters.
    Both regex ends carry a word boundary and both letter classes are word
    characters, so a match is exactly a maximal word-character run of this
    shape. -/
def isCapToken : List Char → Bool
  | [] => false
  | c :: rest => c.isUpper && !rest.isEmpty && rest.all Char.isLower

/-- All matches of the capitalized-word regex: the maximal word-character
    runs of the raw (uncased) text whose shape is uppercase then
    lowercase. -/
def capitalizedTokens (text : List Char) : List (List Char) :=
  (runsBy isWordChar text).filter isCapToken

/-- Python `list(set(entities))`.  CPython iterates a set in an unspecified
    order; the model keeps the first occurrence of each string, which fixes
    one order.  The claims depend only on membership in and length of the
    result, and both are order-independent. -/
def pySet (l : List (List Char)) : List (List Char) :=
  l.foldl (fun acc x => if x ∈ acc then acc else acc ++ [x]) []

/-- `CitationEngine._extract_entities`: quoted phrases, then capitalized
    words, deduplicated. -/
def extract_entities (text : List Char) : List (List Char) :=
  pySet (quotedPhrases text ++ capitalizedTokens text)

/-- `CitationEngine._get_doc_id`: the first 12 characters of the MD5 hex
    digest of the content; `md5` abstracts `hashlib.md5(.).hexdigest()`. -/
def get_doc_id (md5 : List Char → List Char) (doc : CtxDoc) : List Char :=
  (md5 doc.content).take 12

/-- The evidence entries one context document contributes inside the
    `for doc in context` loop of `verify_claim`: a direct match when the
    lowercased claim occurs in the lowercased content, followed by an
    entity match when at least one extracted entity occurs there and the
    matched fraction exceeds one half.  The code runs the entity check for
    every document, whether or not a direct match was just recorded. -/
def doc_evidence (md5 : List Char → List Char) (claim : List Char)
    (entities : List (List Char)) (doc : CtxDoc) : List Evidence :=
  let doc_content := lowerStr doc.content
  let claim_lower := lowerStr claim
  let direct : List Evidence :=
    if pyIn claim_lower doc_content then
      [⟨get_doc_id md5 doc, doc.content, 1, EvType.direct_match⟩]
    else []
  let entity_matches :=
    (entities.filter (fun e => pyIn (lowerStr e) doc_content)).length
  let score : ℚ :=
    if entities.isEmpty then 0
    else (entity_matches : ℚ) / (entities.length : ℚ)
  let entity : List Evidence :=
    if 0 < entity_matches ∧ (1 : ℚ)/2 < score then
      [⟨get_doc_id md5 doc, doc.content, score, EvType.entity_match⟩]
    else []
  direct ++ entity

/-- The full supporting-evidence list of a cache-missing `verify_claim`
    call: the per-document contributions in context order. -/
def allEvidence (md5 : List Char → List Char) (claim : List Char)
    (context : List CtxDoc) : List Evidence :=
  (context.map (doc_evidence md5 claim (extract_entities claim))).flatten

/-- `CitationEngine.verify_claim`.  `md5` abstracts
    `hashlib.md5(.).hexdigest()` and `ts` the `_get_timestamp()` value of
    this call; the mutable `self.verification_cache` is passed in and the
    updated cache is returned next to the result.  On a cache hit the
    cached result is returned and the cache is unchanged; on a miss the
    evidence loop runs, the result is built (empty evidence gives
    `verified = False` with confidence 0, otherwise `verified = True`,
    confidence `min 1 (len/3)` and the top 3 entries after a stable
    descending sort by score; `contradicting_evidence` stays empty) and is
    stored under the hash of the claim alone. -/
def verify_claim (md5 : List Char → List Char) (ts : List Char)
    (claim : List Char) (context : List CtxDoc)
    (cache : PyDict (List Char) VerificationResult) :
    VerificationResult × PyDict (List Char) VerificationResult :=
  let claim_hash := md5 claim
  match dlookup cache claim_hash with
  | some r => (r, cache)
  | none =>
      let supporting_evidence := allEvidence md5 claim context
      let verification_result : VerificationResult :=
        if supporting_evidence.isEmpty then
          ⟨claim, false, 0, [], [], ts⟩
        else
          ⟨claim, true, min 1 ((supporting_evidence.length : ℚ) / 3),
            (sortDescBy (fun e => e.score) supporting_evidence).take 3,
            [], ts⟩
      (verification_result, dset cache claim_hash verification_result)

/-- The mutable state of a `CitationEngine`: the citations list (entries
    abstracted; only emptiness is used here) and the verification cache. -/
structure CitationState where
  citations : List (PyDict (List Char) (List Char))
  verification_cache : PyDict (List Char) VerificationResult

/-- `CitationEngine.clear_citations`: resets both fields to empty. -/
def clear_citations (_st : CitationState) : CitationState :=
  ⟨[], []⟩

/-- The direct-match condition of the evidence loop for one document. -/
def directCond (claim : List Char) (doc : CtxDoc) : Prop :=
  pyIn (lowerStr claim) (lowerStr doc.content) = true

/-- The entity score the evidence loop computes for one document. -/
def entityScore (claim : List Char) (doc : CtxDoc) : ℚ :=
  if (extract_entities claim).isEmpty then 0
  else (((extract_entities claim).filter
          (fun e => pyIn (lowerStr e) (lowerStr doc.content))).length : ℚ) /
       ((extract_entities claim).length : ℚ)

/-- The entity-match condition of the evidence loop for one document. -/
def entityCond (claim : List Char) (doc : CtxDoc) : Prop :=
  0 < ((extract_entities claim).filter
        (fun e => pyIn (lowerStr e) (lowerStr doc.content))).length ∧
  (1 : ℚ)/2 < entityScore claim doc

instance decDirectCond (claim : List Char) (doc : CtxDoc) :
    Decidable (directCond claim doc) := by
  unfold directCond; infer_instance

instance decEntityCond (claim : List Char) (doc : CtxDoc) :
    Decidable (entityCond claim doc) := by
  unfold entityCond; infer_instance

/-- How many evidence entries the loop records over the whole context; a
    document meeting both conditions contributes two. -/
def evidenceCount (claim : List Char) (context : List CtxDoc) : ℕ :=
  (context.map (fun doc =>
    (if directCond claim doc then 1 else 0) +
    (if entityCond claim doc then 1 else 0))).sum

theorem doc_evidence_eq (md5 : List Char → List Char) (claim : List Char)
    (doc : CtxDoc) :
    doc_evidence md5 claim (extract_entities claim) doc =
      (if directCond claim doc then
        [⟨get_doc_id md5 doc, doc.content, 1, EvType.direct_match⟩] else []) ++
      (if entityCond claim doc then
        [⟨get_doc_id md5 doc, doc.content, entityScore claim doc,
          EvType.entity_match⟩] else []) := by
  simp only [doc_evidence, directCond, entityCond, entityScore]

theorem length_allEvidence (md5 : List Char → List Char) (claim : List Char)
    (ctx : List CtxDoc) :
    (allEvidence md5 claim ctx).length = evidenceCount claim ctx := by
  simp only [allEvidence, evidenceCount, List.length_flatten, List.map_map]
  congr 1
  apply List.map_congr_left
  intro doc _
  simp only [Function.comp_apply, doc_evidence_eq]
  by_cases hd : directCond claim doc <;> by_cases he : entityCond claim doc <;>
    simp [hd, he]

theorem evidenceCount_eq_zero_iff (claim : List Char) (ctx : List CtxDoc) :
    evidenceCount claim ctx = 0 ↔
      ∀ doc ∈ ctx, ¬ directCond claim doc ∧ ¬ entityCond claim doc := by
  rw [evidenceCount, List.sum_eq_zero_iff]
  rw [List.forall_mem_map]
  constructor
  · intro h doc hdoc
    have hz := h doc hdoc
    by_cases hd : directCond claim doc <;> by_cases he : entityCond claim doc <;>
      simp [hd, he] at hz ⊢
  · intro h doc hdoc
    have hz := h doc hdoc
    simp [hz.1, hz.2]

theorem verify_claim_hit (md5 : List Char → List Char) (ts claim : List Char)
    (ctx : List CtxDoc) (cache : PyDict (List Char) VerificationResult)
    (r : VerificationResult) (hhit : dlookup cache (md5 claim) = some r) :
    verify_claim md5 ts claim ctx cache = (r, cache) := by
  simp only [verify_claim, hhit]

theorem verify_claim_fst_miss (md5 : List Char → List Char) (ts claim : List Char)
    (ctx : List CtxDoc) (cache : PyDict (List Char) VerificationResult)
    (hmiss : dlookup cache (md5 claim) = none) :
    (verify_claim md5 ts claim ctx cache).1 =
      if (allEvidence md5 claim ctx).isEmpty then
        ⟨claim, false, 0, [], [], ts⟩
      else
        ⟨claim, true, min 1 (((allEvidence md5 claim ctx).length : ℚ) / 3),
          (sortDescBy (fun e => e.score) (allEvidence md5 claim ctx)).take 3,
          [], ts⟩ := by
  simp only [verify_claim, hmiss]

theorem verify_claim_snd_miss (md5 : List Char → List Char) (ts claim : List Char)
    (ctx : List CtxDoc) (cache : PyDict (List Char) VerificationResult)
    (hmiss : dlookup cache (md5 claim) = none) :
    (verify_claim md5 ts claim ctx cache).2 =
      dset cache (md5 claim) (verify_claim md5 ts claim ctx cache).1 := by
  simp only [verify_claim, hmiss]

/-- C10: a second `verify_claim` call with the same claim, on the cache
    left by the first call, returns exactly the first result whatever the
    second context and timestamp are, because the cache key is the MD5
    hash of the claim text alone; `clear_citations` empties both the
    citations list and the verification cache. -/
theorem verify_claim_second_call_cached (md5 : List Char → List Char)
    (ts1 ts2 claim : List Char) (ctx1 ctx2 : List CtxDoc)
    (cache : PyDict (List Char) VerificationResult) (st : CitationState) :
    (verify_claim md5 ts2 claim ctx2
        (verify_claim md5 ts1 claim ctx1 cache).2).1 =
      (verify_claim md5 ts1 claim ctx1 cache).1 ∧
    (clear_citations st).citations = [] ∧
    (clear_citations st).verification_cache = [] := by
  refine ⟨?_, rfl, rfl⟩
  cases hl : dlookup cache (md5 claim) with
  | some r =>
      rw [verify_claim_hit md5 ts1 claim ctx1 cache r hl]
      rw [verify_claim_hit md5 ts2 claim ctx2 cache r hl]
  | none =>
      have hh : dlookup (verify_claim md5 ts1 claim ctx1 cache).2 (md5 claim) =
          some (verify_claim md5 ts1 claim ctx1 cache).1 := by
        rw [verify_claim_snd_miss md5 ts1 claim ctx1 cache hl, dlookup_dset]
        simp
      rw [verify_claim_hit md5 ts2 claim ctx2 _ _ hh]

/-- C3 (amended): on a cache miss, `verify_claim` records for each context
    document a direct match with score 1 when the lowercased claim occurs
    verbatim in the lowercased content and, in addition rather than only in
    its absence, an entity match scored by the matched fraction when more
    than half of the extracted entities occur as lowercase substrings; the
    result is verified iff some document matches in either way, confidence
    is min 1 of the evidence count over 3 with a doubly-matching document
    counted twice, and the supporting evidence is the top 3 of a stable
    descending sort by score of all recorded entries. -/
theorem verify_claim_matches_spec (md5 : List Char → List Char)
    (ts claim : List Char) (ctx : List CtxDoc)
    (cache : PyDict (List Char) VerificationResult)
    (hmiss : dlookup cache (md5 claim) = none) :
    ((verify_claim md5 ts claim ctx cache).1.verified = true ↔
      ∃ doc ∈ ctx, directCond claim doc ∨ entityCond claim doc) ∧
    (verify_claim md5 ts claim ctx cache).1.confidence =
      min 1 ((evidenceCount claim ctx : ℚ) / 3) ∧
    (verify_claim md5 ts claim ctx cache).1.supporting_evidence.length =
      min 3 (evidenceCount claim ctx) ∧
    SortedDesc (fun e => e.score)
      (verify_claim md5 ts claim ctx cache).1.supporting_evidence ∧
    (∀ e ∈ (verify_claim md5 ts claim ctx cache).1.supporting_evidence,
      ∃ doc ∈ ctx, e.document_id = get_doc_id md5 doc ∧
        e.content = doc.content ∧
        ((e.type = EvType.direct_match ∧ e.score = 1 ∧ directCond claim doc) ∨
         (e.type = EvType.entity_match ∧ e.score = entityScore claim doc ∧
           entityCond claim doc))) ∧
    ∃ rest : List Evidence,
      List.Perm
        ((verify_claim md5 ts claim ctx cache).1.supporting_evidence ++ rest)
        (allEvidence md5 claim ctx) ∧
      ∀ e ∈ (verify_claim md5 ts claim ctx cache).1.supporting_evidence,
        ∀ f ∈ rest, f.score ≤ e.score := by
  rw [verify_claim_fst_miss md5 ts claim ctx cache hmiss]
  by_cases hA : (allEvidence md5 claim ctx).isEmpty = true
  · rw [if_pos hA]
    have hA' : allEvidence md5 claim ctx = [] := by
      simpa using hA
    have hcount : evidenceCount claim ctx = 0 := by
      rw [← length_allEvidence md5 claim ctx, hA']
      rfl
    have hnone := (evidenceCount_eq_zero_iff claim ctx).mp hcount
    refine ⟨?_, ?_, ?_, ?_, ?_, ?_⟩
    · constructor
      · intro h
        simp at h
      · rintro ⟨doc, hdoc, h | h⟩
        · exact absurd h (hnone doc hdoc).1
        · exact absurd h (hnone doc hdoc).2
    · show (0 : ℚ) = min 1 ((evidenceCount claim ctx : ℚ) / 3)
      rw [hcount]
      norm_num
    · show (List.length [] : ℕ) = min 3 (evidenceCount claim ctx)
      rw [hcount]
      rfl
    · show SortedDesc (fun e => e.score) ([] : List Evidence)
      simp [SortedDesc]
    · intro e he
      simp at he
    · refine ⟨[], ?_, ?_⟩
      · rw [hA']
        rfl
      · intro e he
        simp at he
  · rw [if_neg hA]
    have hne : allEvidence md5 claim ctx ≠ [] := by
      intro h
      rw [h] at hA
      exact hA rfl
    have hcnt : evidenceCount claim ctx ≠ 0 := by
      rw [← length_allEvidence md5 claim ctx]
      simpa [List.length_eq_zero] using hne
    refine ⟨?_, ?_, ?_, ?_, ?_, ?_⟩
    · have hex : ∃ doc ∈ ctx, directCond claim doc ∨ entityCond claim doc := by
        by_contra hno
        push_neg at hno
        exact hcnt ((evidenceCount_eq_zero_iff claim ctx).mpr hno)
      exact ⟨fun _ => hex, fun _ => rfl⟩
    · show min 1 (((allEvidence md5 claim ctx).length : ℚ) / 3) =
        min 1 ((evidenceCount claim ctx : ℚ) / 3)
      rw [length_allEvidence]
    · show ((sortDescBy (fun e => e.score) (allEvidence md5 claim ctx)).take 3).length =
        min 3 (evidenceCount claim ctx)
      rw [List.length_take,
        (perm_sortDescBy (fun e => e.score) (allEvidence md5 claim ctx)).length_eq,
        length_allEvidence]
    · have hs := sortedDesc_sortDescBy (fun e : Evidence => e.score)
        (allEvidence md5 claim ctx)
      rw [SortedDesc] at hs ⊢
      exact hs.sublist (List.take_sublist 3 _)
    · intro e he
      have hes : e ∈ sortDescBy (fun e => e.score) (allEvidence md5 claim ctx) :=
        List.mem_of_mem_take he
      have hall : e ∈ allEvidence md5 claim ctx :=
        (mem_sortDescBy (fun e => e.score) _ e).mp hes
      rw [allEvidence, List.mem_flatten] at hall
      obtain ⟨l, hl, hel⟩ := hall
      rw [List.mem_map] at hl
      obtain ⟨doc, hdoc, rfl⟩ := hl
      rw [doc_evidence_eq, List.mem_append] at hel
      rcases hel with h | h
      · by_cases hd : directCond claim doc
        · rw [if_pos hd] at h
          rw [List.mem_singleton] at h
          subst h
          exact ⟨doc, hdoc, rfl, rfl, Or.inl ⟨rfl, rfl, hd⟩⟩
        · rw [if_neg hd] at h
          simp at h
      · by_cases hent : entityCond claim doc
        · rw [if_pos hent] at h
          rw [List.mem_singleton] at h
          subst h
          exact ⟨doc, hdoc, rfl, rfl, Or.inr ⟨rfl, rfl, hent⟩⟩
        · rw [if_neg hent] at h
          simp at h
    · refine ⟨(sortDescBy (fun e => e.score) (allEvidence md5 claim ctx)).drop 3,
        ?_, ?_⟩
      · show List.Perm
          ((sortDescBy (fun e => e.score) (allEvidence md5 claim ctx)).take 3 ++
            (sortDescBy (fun e => e.score) (allEvidence md5 claim ctx)).drop 3)
          (allEvidence md5 claim ctx)
        rw [List.take_append_drop]
        exact perm_sortDescBy (fun e => e.score) (allEvidence md5 claim ctx)
      · intro e he f hf
        exact take_dominates_of_sortedDesc (fun e => e.score) _
          (sortedDesc_sortDescBy (fun e => e.score) (allEvidence md5 claim ctx))
          3 e he f hf

theorem parisDirect :
    directCond ['P','a','r','i','s']
      ⟨['P','a','r','i','s',' ','i','s',' ','n','i','c','e']⟩ := by
  rw [directCond]
  decide

theorem parisEntityScore :
    entityScore ['P','a','r','i','s']
      ⟨['P','a','r','i','s',' ','i','s',' ','n','i','c','e']⟩ = 1 := by
  rw [entityScore]
  rw [if_neg (by decide :
    ¬ (extract_entities ['P','a','r','i','s']).isEmpty = true)]
  have h1 : ((extract_entities ['P','a','r','i','s']).filter
      (fun e => pyIn (lowerStr e)
        (lowerStr (CtxDoc.mk ['P','a','r','i','s',' ','i','s',' ','n','i','c','e']).content))).length = 1 := by
    decide
  have h2 : (extract_entities ['P','a','r','i','s']).length = 1 := by
    decide
  rw [h1, h2]
  norm_num

theorem parisEntity :
    entityCond ['P','a','r','i','s']
      ⟨['P','a','r','i','s',' ','i','s',' ','n','i','c','e']⟩ := by
  rw [entityCond]
  refine ⟨by decide, ?_⟩
  rw [parisEntityScore]
  norm_num

theorem parisAllEvidence :
    allEvidence (fun s => s) ['P','a','r','i','s']
      [⟨['P','a','r','i','s',' ','i','s',' ','n','i','c','e']⟩] =
    [⟨get_doc_id (fun s => s) ⟨['P','a','r','i','s',' ','i','s',' ','n','i','c','e']⟩,
        ['P','a','r','i','s',' ','i','s',' ','n','i','c','e'], 1,
        EvType.direct_match⟩,
     ⟨get_doc_id (fun s => s) ⟨['P','a','r','i','s',' ','i','s',' ','n','i','c','e']⟩,
        ['P','a','r','i','s',' ','i','s',' ','n','i','c','e'], 1,
        EvType.entity_match⟩] := by
  rw [allEvidence]
  simp only [List.map, List.flatten, List.append_nil]
  rw [doc_evidence_eq, if_pos parisDirect, if_pos parisEntity, parisEntityScore]
  rfl

/-- Counterexample to C3 as stated: for the claim Paris checked against the
    single document Paris is nice, the code records both a direct match and
    an entity match for the same document — the entity check is not guarded
    by the absence of a direct match — so the result holds two evidence
    entries and confidence 2/3, while the claimed otherwise-reading yields a
    single entry and confidence min 1 (1/3) = 1/3. -/
theorem verify_claim_entity_after_direct_counterexample :
    ((verify_claim (fun s => s) [] ['P','a','r','i','s']
        [⟨['P','a','r','i','s',' ','i','s',' ','n','i','c','e']⟩]
        []).1).supporting_evidence.map (fun e => e.type) =
      [EvType.direct_match, EvType.entity_match] ∧
    ((verify_claim (fun s => s) [] ['P','a','r','i','s']
        [⟨['P','a','r','i','s',' ','i','s',' ','n','i','c','e']⟩]
        []).1).confidence = 2/3 ∧
    ((2 : ℚ)/3) ≠ min 1 ((1 : ℚ)/3) := by
  rw [verify_claim_fst_miss (fun s => s) [] ['P','a','r','i','s']
    [⟨['P','a','r','i','s',' ','i','s',' ','n','i','c','e']⟩] [] rfl]
  rw [parisAllEvidence]
  rw [if_neg (by simp : ¬ (List.isEmpty
    [(⟨get_doc_id (fun s => s) ⟨['P','a','r','i','s',' ','i','s',' ','n','i','c','e']⟩,
        ['P','a','r','i','s',' ','i','s',' ','n','i','c','e'], 1,
        EvType.direct_match⟩ : Evidence),
     ⟨get_doc_id (fun s => s) ⟨['P','a','r','i','s',' ','i','s',' ','n','i','c','e']⟩,
        ['P','a','r','i','s',' ','i','s',' ','n','i','c','e'], 1,
        EvType.entity_match⟩]) = true)]
  refine ⟨?_, ?_, by norm_num⟩
  · have hsort : sortDescBy (fun e : Evidence => e.score)
        [⟨get_doc_id (fun s => s) ⟨['P','a','r','i','s',' ','i','s',' ','n','i','c','e']⟩,
            ['P','a','r','i','s',' ','i','s',' ','n','i','c','e'], 1,
            EvType.direct_match⟩,
         ⟨get_doc_id (fun s => s) ⟨['P','a','r','i','s',' ','i','s',' ','n','i','c','e']⟩,
            ['P','a','r','i','s',' ','i','s',' ','n','i','c','e'], 1,
            EvType.entity_match⟩] =
        [⟨get_doc_id (fun s => s) ⟨['P','a','r','i','s',' ','i','s',' ','n','i','c','e']⟩,
            ['P','a','r','i','s',' ','i','s',' ','n','i','c','e'], 1,
            EvType.direct_match⟩,
         ⟨get_doc_id (fun s => s) ⟨['P','a','r','i','s',' ','i','s',' ','n','i','c','e']⟩,
            ['P','a','r','i','s',' ','i','s',' ','n','i','c','e'], 1,
            EvType.entity_match⟩] := by
      simp only [sortDescBy, List.foldl, insertDescBy]
      norm_num
    rw [hsort]
    rfl
  · show min 1 ((2 : ℕ) / 3 : ℚ) = 2/3
    norm_num

/-- Witness for C3: instantiated on an empty cache (a cache miss by
    construction), the verification result is sorted descending by score and
    its verified flag matches the existence of a matching document. -/
theorem verify_claim_matches_spec_witness :
    SortedDesc (fun e => e.score)
      ((verify_claim (fun s => s) [] ['P','a','r','i','s']
        [⟨['P','a','r','i','s',' ','i','s',' ','n','i','c','e']⟩]
        []).1).supporting_evidence ∧
    (((verify_claim (fun s => s) [] ['P','a','r','i','s']
        [⟨['P','a','r','i','s',' ','i','s',' ','n','i','c','e']⟩]
        []).1).verified = true ↔
      ∃ doc ∈ [(⟨['P','a','r','i','s',' ','i','s',' ','n','i','c','e']⟩ : CtxDoc)],
        directCond ['P','a','r','i','s'] doc ∨
        entityCond ['P','a','r','i','s'] doc) := by
  have h := verify_claim_matches_spec (fun s => s) [] ['P','a','r','i','s']
    [⟨['P','a','r','i','s',' ','i','s',' ','n','i','c','e']⟩] [] rfl
  exact ⟨h.2.2.2.1, h.1⟩

/-! ### Multi-step reasoner — `src/nexusrag/reasoning/multi_step.py` -/

/-- A parsed JSON value (`json.loads` result).  Python floats are modelled
    by ℚ and ints are absorbed into `num`. -/
inductive Json where
  | str : List Char → Json
  | num : ℚ → Json
  | bool : Bool → Json
  | null : Json
  | arr : List Json → Json
  | obj : List (List Char × Json) → Json

/-- A context document handed to the reasoner; it is only ever carried into
    prompt text by `_format_context`. -/
structure RagDoc where
  content : List Char
  score : ℚ

/-- The `type` field of a reasoning step record. -/
inductive StepType where
  | initial_analysis
  | refinement
deriving DecidableEq

/-- One reasoning step record.  `payload` is the value stored under the
    `analysis` key (initial step) or the `refinement` key (refinement
    steps); the write-only `prompt` field of the Python dict is omitted,
    since it is a function of the query, context and earlier payloads that
    the model already carries. -/
structure StepRecord where
  step : ℕ
  type : StepType
  payload : Json
  response : List Char

/-- The argument of one LLM call, carrying the data the Python f-string
    prompt is built from; `llm : Prompt → List Char` abstracts
    `self.llm.generate`. -/
inductive Prompt where
  | initial (query : List Char) (context : List RagDoc)
  | refine (query : List Char) (context : List RagDoc) (prevAnalysis : Json)
  | synth (query : List Char) (context : List RagDoc)
      (steps : List StepRecord)

/-- `previous_state.get("analysis", \x7b\x7d)` of `_refinement_step`: only
    initial records carry the `analysis` key, so a refinement record as
    previous state yields the empty dict. -/
def getAnalysis (r : StepRecord) : Json :=
  match r.type with
  | StepType.initial_analysis => r.payload
  | StepType.refinement => Json.obj []

/-- `dict.get(key, default)` on a parsed JSON object. -/
def jget (o : PyDict (List Char) Json) (k : List Char) (d : Json) : Json :=
  (dlookup o k).getD d

/-- The fallback analysis dict of `_initial_analysis` when `json.loads`
    fails. -/
def fallbackAnalysis (response : List Char) : Json :=
  Json.obj
    [("entities".toList, Json.arr []),
     ("relevant_context".toList, Json.arr []),
     ("approach".toList, Json.str response),
     ("challenges".toList, Json.arr [])]

/-- The fallback refinement dict of `_refinement_step` when `json.loads`
    fails. -/
def fallbackRefinement (response : List Char) : Json :=
  Json.obj
    [("entities".toList, Json.arr []),
     ("relevant_context".toList, Json.arr []),
     ("approach".toList, Json.str response),
     ("insights".toList, Json.arr [])]

/-- `MultiStepReasoner._initial_analysis`; `parse` abstracts `json.loads`,
    returning `none` on `json.JSONDecodeError`. -/
def initial_analysis (llm : Prompt → List Char)
    (parse : List Char → Option Json) (query : List Char)
    (context : List RagDoc) : StepRecord :=
  let response := llm (Prompt.initial query context)
  let analysis : Json :=
    match parse response with
    | some j => j
    | none => fallbackAnalysis response
  ⟨0, StepType.initial_analysis, analysis, response⟩

/-- `MultiStepReasoner._refinement_step`. -/
def refinement_step (llm : Prompt → List Char)
    (parse : List Char → Option Json) (query : List Char)
    (context : List RagDoc) (previous_state : StepRecord) (step : ℕ) :
    StepRecord :=
  let response := llm (Prompt.refine query context (getAnalysis previous_state))
  let refinement : Json :=
    match parse response with
    | some j => j
    | none => fallbackRefinement response
  ⟨step, StepType.refinement, refinement, response⟩

/-- The substring test of `_should_stop_early` on a lowercased response. -/
def stopTriggered (response : List Char) : Bool :=
  pyIn ("sufficient".toList) (lowerStr response) ||
  pyIn ("adequate".toList) (lowerStr response) ||
  pyIn ("complete".toList) (lowerStr response)

/-- `MultiStepReasoner._should_stop_early`: the key `refinement` is present
    exactly in refinement records, so the substring test runs only on
    them. -/
def should_stop_early (step_result : StepRecord) : Bool :=
  match step_result.type with
  | StepType.refinement => stopTriggered step_result.response
  | StepType.initial_analysis => false

/-- The synthesis result of `_synthesize_answer`. -/
structure SynthResult where
  answer : Json
  confidence : Json
  evidence : Json
  limitations : Json

/-- `MultiStepReasoner._synthesize_answer`.  On a parse failure the
    fallback dict is built and read back with `.get`; when the response
    parses to a non-object, `synthesis.get(...)` raises `AttributeError`,
    modelled as `.error ()`. -/
def synthesize_answer (llm : Prompt → List Char)
    (parse : List Char → Option Json) (query : List Char)
    (context : List RagDoc) (steps : List StepRecord) :
    Except Unit SynthResult :=
  let response := llm (Prompt.synth query context steps)
  let synthesis : Except Unit (PyDict (List Char) Json) :=
    match parse response with
    | some (Json.obj o) => Except.ok o
    | some _ => Except.error ()
    | none =>
        Except.ok
          [("answer".toList, Json.str response),
           ("confidence".toList, Json.num (1/2)),
           ("evidence".toList, Json.arr []),
           ("limitations".toList,
             Json.str ("Unable to parse structured response".toList))]
  match synthesis with
  | Except.error e => Except.error e
  | Except.ok s =>
      Except.ok
        ⟨jget s ("answer".toList) (Json.str response),
         jget s ("confidence".toList) (Json.num (1/2)),
         jget s ("evidence".toList) (Json.arr []),
         jget s ("limitations".toList) (Json.str [])⟩

/-- The refinement loop `for step in range(1, max_steps)` of `reason`,
    structurally recursing on the number of remaining iterations: each
    iteration appends its record and breaks after appending when
    `_should_stop_early` fires. -/
def refineSteps (llm : Prompt → List Char) (parse : List Char → Option Json)
    (query : List Char) (context : List RagDoc) :
    StepRecord → ℕ → ℕ → List StepRecord
  | _, _, 0 => []
  | current, step, Nat.succ n =>
      let r := refinement_step llm parse query context current step
      if should_stop_early r then [r]
      else r :: refineSteps llm parse query context r (step + 1) n

/-- A reasoning session as returned by `reason` (the keys of
    `reasoning_session` after the final assignments). -/
structure Session where
  session_id : ℕ
  query : List Char
  steps : List StepRecord
  final_answer : Json
  confidence : Json
  evidence : Json

/-- `MultiStepReasoner.reason`.  `vs` abstracts `self.vector_store.query`
    and `history_len` the length of `self.reasoning_history` (the session
    id); a `none` context is retrieved with `top_k = 10`.  An
    `AttributeError` escaping the synthesis propagates out of `reason`. -/
def reason (llm : Prompt → List Char) (parse : List Char → Option Json)
    (vs : List Char → ℕ → List RagDoc) (history_len : ℕ)
    (query : List Char) (max_steps : ℕ)
    (context : Option (List RagDoc)) : Except Unit Session :=
  let ctx := match context with
    | some c => c
    | none => vs query 10
  let s0 := initial_analysis llm parse query ctx
  let steps := s0 :: refineSteps llm parse query ctx s0 1 (max_steps - 1)
  match synthesize_answer llm parse query ctx steps with
  | Except.error e => Except.error e
  | Except.ok fr =>
      Except.ok ⟨history_len, query, steps, fr.answer, fr.confidence,
        fr.evidence⟩

theorem reason_eq_of_synth (llm : Prompt → List Char)
    (parse : List Char → Option Json) (vs : List Char → ℕ → List RagDoc)
    (h : ℕ) (q : List Char) (ms : ℕ) (ctx : List RagDoc) (fr : SynthResult)
    (hfr : synthesize_answer llm parse q ctx
      (initial_analysis llm parse q ctx ::
        refineSteps llm parse q ctx (initial_analysis llm parse q ctx) 1
          (ms - 1)) = Except.ok fr) :
    reason llm parse vs h q ms (some ctx) =
      Except.ok ⟨h, q,
        initial_analysis llm parse q ctx ::
          refineSteps llm parse q ctx (initial_analysis llm parse q ctx) 1
            (ms - 1),
        fr.answer, fr.confidence, fr.evidence⟩ := by
  simp only [reason, hfr]

theorem synth_ok_of_obj (llm : Prompt → List Char)
    (parse : List Char → Option Json) (q : List Char) (ctx : List RagDoc)
    (steps : List StepRecord)
    (hobj : ∀ j, parse (llm (Prompt.synth q ctx steps)) = some j →
      ∃ o, j = Json.obj o) :
    ∃ fr, synthesize_answer llm parse q ctx steps = Except.ok fr := by
  cases hp : parse (llm (Prompt.synth q ctx steps)) with
  | none =>
      exact ⟨_, by simp only [synthesize_answer, hp]; rfl⟩
  | some j =>
      obtain ⟨o, rfl⟩ := hobj _ hp
      exact ⟨_, by simp only [synthesize_answer, hp]; rfl⟩

/-- C4 (amended): with max_steps 3, a supplied context, and every LLM
    response either failing to parse or parsing to a JSON object (otherwise
    the synthesis step raises), `reason` yields a session of exactly 3 step
    records — one initial_analysis then two refinements with step numbers
    0, 1, 2 — when no response contains an early-stop substring, and
    exactly 2 records when the first refinement response triggers the stop;
    the stop test is exactly the three case-insensitive substrings, checked
    on refinement records only. -/
theorem reason_step_counts (llm : Prompt → List Char)
    (parse : List Char → Option Json) (vs : List Char → ℕ → List RagDoc)
    (h : ℕ) (q : List Char) (ctx : List RagDoc)
    (hobj : ∀ (p : Prompt) (j : Json), parse (llm p) = some j →
      ∃ o, j = Json.obj o) :
    ((∀ p : Prompt, stopTriggered (llm p) = false) →
      ∃ s, reason llm parse vs h q 3 (some ctx) = Except.ok s ∧
        s.steps.map StepRecord.type =
          [StepType.initial_analysis, StepType.refinement,
           StepType.refinement] ∧
        s.steps.map StepRecord.step = [0, 1, 2]) ∧
    (stopTriggered (llm (Prompt.refine q ctx
        (getAnalysis (initial_analysis llm parse q ctx)))) = true →
      ∃ s, reason llm parse vs h q 3 (some ctx) = Except.ok s ∧
        s.steps.map StepRecord.type =
          [StepType.initial_analysis, StepType.refinement] ∧
        s.steps.map StepRecord.step = [0, 1]) ∧
    (∀ r : StepRecord, should_stop_early r = true ↔
      (r.type = StepType.refinement ∧
        (pyIn ("sufficient".toList) (lowerStr r.response) ||
         pyIn ("adequate".toList) (lowerStr r.response) ||
         pyIn ("complete".toList) (lowerStr r.response)) = true)) := by
  refine ⟨?_, ?_, ?_⟩
  · intro hns
    have hstop : ∀ (cur : StepRecord) (k : ℕ),
        should_stop_early (refinement_step llm parse q ctx cur k) = false := by
      intro cur k
      simp only [should_stop_early, refinement_step]
      exact hns _
    have hloop : refineSteps llm parse q ctx
        (initial_analysis llm parse q ctx) 1 (3 - 1) =
        [refinement_step llm parse q ctx (initial_analysis llm parse q ctx) 1,
         refinement_step llm parse q ctx
           (refinement_step llm parse q ctx
             (initial_analysis llm parse q ctx) 1) 2] := by
      simp [refineSteps, hstop]
    obtain ⟨fr, hfr⟩ := synth_ok_of_obj llm parse q ctx
      (initial_analysis llm parse q ctx ::
        refineSteps llm parse q ctx (initial_analysis llm parse q ctx) 1
          (3 - 1))
      (fun j => hobj _ j)
    refine ⟨_, reason_eq_of_synth llm parse vs h q 3 ctx fr hfr, ?_, ?_⟩
    · show (initial_analysis llm parse q ctx ::
        refineSteps llm parse q ctx (initial_analysis llm parse q ctx) 1
          (3 - 1)).map StepRecord.type = _
      rw [hloop]
      rfl
    · show (initial_analysis llm parse q ctx ::
        refineSteps llm parse q ctx (initial_analysis llm parse q ctx) 1
          (3 - 1)).map StepRecord.step = _
      rw [hloop]
      rfl
  · intro hst
    have hstop1 : should_stop_early (refinement_step llm parse q ctx
        (initial_analysis llm parse q ctx) 1) = true := by
      simp only [should_stop_early, refinement_step]
      exact hst
    have hloop2 : refineSteps llm parse q ctx
        (initial_analysis llm parse q ctx) 1 (3 - 1) =
        [refinement_step llm parse q ctx
          (initial_analysis llm parse q ctx) 1] := by
      simp [refineSteps, hstop1]
    obtain ⟨fr, hfr⟩ := synth_ok_of_obj llm parse q ctx
      (initial_analysis llm parse q ctx ::
        refineSteps llm parse q ctx (initial_analysis llm parse q ctx) 1
          (3 - 1))
      (fun j => hobj _ j)
    refine ⟨_, reason_eq_of_synth llm parse vs h q 3 ctx fr hfr, ?_, ?_⟩
    · show (initial_analysis llm parse q ctx ::
        refineSteps llm parse q ctx (initial_analysis llm parse q ctx) 1
          (3 - 1)).map StepRecord.type = _
      rw [hloop2]
      rfl
    · show (initial_analysis llm parse q ctx ::
        refineSteps llm parse q ctx (initial_analysis llm parse q ctx) 1
          (3 - 1)).map StepRecord.step = _
      rw [hloop2]
      rfl
  · intro r
    rcases r with ⟨st, ty, pl, resp⟩
    cases ty
    · simp [should_stop_early]
    · simp [should_stop_early, stopTriggered]

/-- Counterexample to C4 as stated: an LLM that always answers the valid
    JSON text 1 — which contains no early-stop substring — makes the
    synthesis call `.get` on a non-dict, so `reason` raises instead of
    producing a session with 3 step records. -/
theorem reason_nonobject_synthesis_counterexample :
    reason (fun _ => ['1'])
      (fun s => if s = ['1'] then some (Json.num 1) else none)
      (fun _ _ => []) 0 ['q'] 3 (some []) = Except.error () ∧
    (∀ p : Prompt, stopTriggered ((fun _ : Prompt => ['1']) p) = false) := by
  constructor
  · rfl
  · intro p
    rfl

/-- Witness for C4: a never-parsing LLM without stop substrings gives 3
    records, and one always answering sufficient gives 2. -/
theorem reason_step_counts_witness :
    (∃ s, reason (fun _ => ['x']) (fun _ => none) (fun _ _ => []) 0 ['q'] 3
        (some []) = Except.ok s ∧
      s.steps.map StepRecord.type =
        [StepType.initial_analysis, StepType.refinement,
         StepType.refinement] ∧
      s.steps.map StepRecord.step = [0, 1, 2]) ∧
    (∃ s, reason (fun _ => "sufficient".toList) (fun _ => none)
        (fun _ _ => []) 0 ['q'] 3 (some []) = Except.ok s ∧
      s.steps.map StepRecord.type =
        [StepType.initial_analysis, StepType.refinement] ∧
      s.steps.map StepRecord.step = [0, 1]) := by
  constructor
  · exact (reason_step_counts (fun _ => ['x']) (fun _ => none)
      (fun _ _ => []) 0 ['q'] [] (fun p j hj => nomatch hj)).1 (fun p => rfl)
  · exact (reason_step_counts (fun _ => "sufficient".toList) (fun _ => none)
      (fun _ _ => []) 0 ['q'] [] (fun p j hj => nomatch hj)).2.1 rfl

/-- C5: when every LLM response fails to parse as JSON, `reason` never
    raises: each step record wraps its raw response in the approach field
    of the fallback dict with the other fields emptied, the raw synthesis
    response becomes the final answer with confidence 0.5, and the
    synthesis result carries the parse-failure limitations note. -/
theorem reason_json_fallback (llm : Prompt → List Char)
    (parse : List Char → Option Json) (vs : List Char → ℕ → List RagDoc)
    (h : ℕ) (q : List Char) (ms : ℕ) (ctx : List RagDoc)
    (hpf : ∀ p : Prompt, parse (llm p) = none) :
    ∃ s, reason llm parse vs h q ms (some ctx) = Except.ok s ∧
      (∀ r ∈ s.steps,
        (r.type = StepType.initial_analysis →
          r.payload = fallbackAnalysis r.response) ∧
        (r.type = StepType.refinement →
          r.payload = fallbackRefinement r.response)) ∧
      s.final_answer = Json.str (llm (Prompt.synth q ctx s.steps)) ∧
      s.confidence = Json.num (1/2) ∧
      synthesize_answer llm parse q ctx s.steps =
        Except.ok ⟨Json.str (llm (Prompt.synth q ctx s.steps)),
          Json.num (1/2), Json.arr [],
          Json.str ("Unable to parse structured response".toList)⟩ := by
  have hsy : ∀ steps : List StepRecord,
      synthesize_answer llm parse q ctx steps =
        Except.ok ⟨Json.str (llm (Prompt.synth q ctx steps)), Json.num (1/2),
          Json.arr [], Json.str ("Unable to parse structured response".toList)⟩ := by
    intro steps
    simp only [synthesize_answer, hpf]
    rfl
  have href : ∀ (n step : ℕ) (cur : StepRecord),
      ∀ r ∈ refineSteps llm parse q ctx cur step n,
        r.type = StepType.refinement ∧
        r.payload = fallbackRefinement r.response := by
    intro n
    induction n with
    | zero =>
        intro step cur r hr
        simp [refineSteps] at hr
    | succ n ih =>
        intro step cur r hr
        simp only [refineSteps] at hr
        split at hr
        · rw [List.mem_singleton] at hr
          subst hr
          exact ⟨rfl, by simp only [refinement_step, hpf]⟩
        · rcases List.mem_cons.mp hr with rfl | hr2
          · exact ⟨rfl, by simp only [refinement_step, hpf]⟩
          · exact ih (step + 1) _ r hr2
  refine ⟨_, reason_eq_of_synth llm parse vs h q ms ctx _ (hsy _), ?_, rfl, rfl,
    hsy _⟩
  intro r hr
  rcases List.mem_cons.mp hr with rfl | hr2
  · refine ⟨fun _ => ?_, fun hty => ?_⟩
    · simp only [initial_analysis, hpf]
    · simp only [initial_analysis] at hty
      cases hty
  · have hrr := href (ms - 1) 1 _ r hr2
    refine ⟨fun hty => ?_, fun _ => hrr.2⟩
    rw [hrr.1] at hty
    cases hty

/-- Witness for C5: the fallback behaviour at a concrete never-parsing
    LLM. -/
theorem reason_json_fallback_witness :
    ∃ s, reason (fun _ => ['x']) (fun _ => none) (fun _ _ => []) 0 ['w'] 3
        (some []) = Except.ok s ∧
      (∀ r ∈ s.steps,
        (r.type = StepType.initial_analysis →
          r.payload = fallbackAnalysis r.response) ∧
        (r.type = StepType.refinement →
          r.payload = fallbackRefinement r.response)) ∧
      s.final_answer =
        Json.str ((fun _ : Prompt => ['x']) (Prompt.synth ['w'] [] s.steps)) ∧
      s.confidence = Json.num (1/2) ∧
      synthesize_answer (fun _ => ['x']) (fun _ => none) ['w'] [] s.steps =
        Except.ok ⟨Json.str ((fun _ : Prompt => ['x'])
            (Prompt.synth ['w'] [] s.steps)),
          Json.num (1/2), Json.arr [],
          Json.str ("Unable to parse structured response".toList)⟩ :=
  reason_json_fallback (fun _ => ['x']) (fun _ => none) (fun _ _ => []) 0
    ['w'] 3 [] (fun _ => rfl)

/-! ### Re-rankers — `src/nexusrag/retrievers/reranker.py` -/

/-- `LightweightReranker.rerank`.  Python mutates each document dict by
    adding a `rerank_score` key and returns the same dicts sorted; the
    model returns document–score pairs instead. -/
def lightweight_rerank (query : List Char) (documents : List Document)
    (top_k : ℕ) : List (Document × ℚ) :=
  if documents.isEmpty then []
  else
    let query_terms := splitWs (lowerStr query)
    let scored := documents.map (fun doc =>
      let content := lowerStr doc.content
      let score0 : ℚ :=
        (query_terms.map (fun term => (pyCount content term : ℚ))).sum
      let score :=
        if 0 < (splitWs content).length then
          score0 / ((splitWs content).length : ℚ)
        else score0
      (doc, score))
    (sortDescBy (fun p => p.2) scored).take top_k

/-- `BGEReranker.rerank`.  `load` abstracts `self._load_model()`, which
    runs before the empty-input check and raises when transformers or
    torch are missing or the model fails to load.  The module imports only
    numpy at top level and `import torch` happens inside `_load_model`
    local scope, so the `with torch.no_grad()` in the non-empty path always
    raises `NameError`; no model scoring is ever reached. -/
def bge_rerank (load : Except Unit Unit) (query : List Char)
    (documents : List Document) (top_k : ℕ) :
    Except Unit (List (Document × ℚ)) :=
  match load with
  | Except.error e => Except.error e
  | Except.ok _ =>
      if documents.isEmpty then Except.ok []
      else Except.error ()

/-- C7 (amended): the lightweight re-ranker maps an empty document list to
    an empty list for every query and top_k; the BGE re-ranker does so only
    when the model load succeeds, since `_load_model()` runs before the
    empty-input check and its failure propagates. -/
theorem rerank_empty_input (q : List Char) (tk : ℕ) :
    lightweight_rerank q [] tk = [] ∧
    bge_rerank (Except.ok ()) q [] tk = Except.ok [] ∧
    bge_rerank (Except.error ()) q [] tk = Except.error () :=
  ⟨rfl, rfl, rfl⟩

/-- Counterexample to C7 as stated: when the BGE model fails to load (for
    example transformers or torch is not installed), `rerank` on an empty
    list raises instead of returning empty; and even after a successful
    load, a non-empty list raises `NameError` because `torch` is unbound at
    module scope. -/
theorem bge_rerank_raises_counterexample :
    bge_rerank (Except.error ()) ['x'] [] 3 = Except.error () ∧
    bge_rerank (Except.ok ()) ['x'] [⟨['d'], []⟩] 3 = Except.error () :=
  ⟨rfl, rfl⟩

/-! ### Cross-modal retriever — `src/nexusrag/retrievers/cross_modal.py` -/

/-- One vector-store search result as consumed by `cross_modal_search`:
    `result.get("metadata", \x7b\x7d)` and `.get("score", 0.0)` are
    modelled with the fields always present, an absent metadata dict being
    the empty dict. -/
structure CMResult where
  content : List Char
  metadata : PyDict (List Char) (List Char)
  score : ℚ

/-- `metadata.get("content_type", "unknown")`. -/
def content_type_of (r : CMResult) : List Char :=
  (dlookup r.metadata ("content_type".toList)).getD ("unknown".toList)

/-- `metadata.get("media_type", "unknown")`. -/
def media_type_of (r : CMResult) : List Char :=
  (dlookup r.metadata ("media_type".toList)).getD ("unknown".toList)

/-- `CrossModalRetriever._matches_modality`. -/
def matches_modality (content_type media_type target_modality : List Char) :
    Bool :=
  let ct := lowerStr content_type
  let mt := lowerStr media_type
  let tm := lowerStr target_modality
  if tm = "text".toList then
    decide (ct = "text".toList ∨ ct = "table".toList ∨ mt = "text".toList)
  else if tm = "image".toList then
    decide (ct = "image".toList ∨ mt = "image".toList)
  else if tm = "audio".toList then
    decide (ct = "audio".toList ∨ mt = "audio".toList)
  else if tm = "video".toList then
    decide (ct = "video".toList ∨ mt = "video".toList)
  else if tm = "table".toList then
    decide (ct = "table".toList)
  else
    true

/-- `CrossModalRetriever.cross_modal_search`; `vq` abstracts
    `self.vector_store.query`, called with `top_k * 2`.  A `none` or empty
    modality string is falsy in `if modality:`, skipping the filter. -/
def cross_modal_search (vq : List Char → ℕ → List CMResult)
    (query : List Char) (modality : Option (List Char)) (top_k : ℕ) :
    List CMResult :=
  let results := vq query (top_k * 2)
  let filtered := match modality with
    | none => results
    | some m =>
        if m.isEmpty then results
        else
          results.filter (fun r =>
            matches_modality (content_type_of r) (media_type_of r) m)
  (sortDescBy (fun r => r.score) filtered).take top_k

/-- C8: an image search returns only results whose (lowercased)
    content_type or media_type is image, drawn from the vector-store
    results, sorted descending by score and truncated to top_k; and
    `_matches_modality` implements exactly the fixed compatibility
    table. -/
theorem cross_modal_image_filter (vq : List Char → ℕ → List CMResult)
    (q : List Char) (tk : ℕ) :
    (∀ r ∈ cross_modal_search vq q (some ("image".toList)) tk,
      r ∈ vq q (tk * 2) ∧
        (lowerStr (content_type_of r) = "image".toList ∨
         lowerStr (media_type_of r) = "image".toList)) ∧
    SortedDesc (fun r => r.score)
      (cross_modal_search vq q (some ("image".toList)) tk) ∧
    (cross_modal_search vq q (some ("image".toList)) tk).length ≤ tk ∧
    (∀ ct mt : List Char,
      (matches_modality ct mt ("text".toList) = true ↔
        (lowerStr ct = "text".toList ∨ lowerStr ct = "table".toList ∨
         lowerStr mt = "text".toList)) ∧
      (matches_modality ct mt ("image".toList) = true ↔
        (lowerStr ct = "image".toList ∨ lowerStr mt = "image".toList)) ∧
      (matches_modality ct mt ("audio".toList) = true ↔
        (lowerStr ct = "audio".toList ∨ lowerStr mt = "audio".toList)) ∧
      (matches_modality ct mt ("video".toList) = true ↔
        (lowerStr ct = "video".toList ∨ lowerStr mt = "video".toList)) ∧
      (matches_modality ct mt ("table".toList) = true ↔
        lowerStr ct = "table".toList)) := by
  have hout : cross_modal_search vq q (some ("image".toList)) tk =
      (sortDescBy (fun r => r.score)
        ((vq q (tk * 2)).filter (fun r =>
          matches_modality (content_type_of r) (media_type_of r)
            ("image".toList)))).take tk := rfl
  refine ⟨?_, ?_, ?_, ?_⟩
  · intro r hr
    rw [hout] at hr
    have hsr := List.mem_of_mem_take hr
    have hfil := (mem_sortDescBy (fun r => r.score) _ r).mp hsr
    have hmem := List.mem_of_mem_filter hfil
    have hpred := List.of_mem_filter hfil
    refine ⟨hmem, ?_⟩
    have : matches_modality (content_type_of r) (media_type_of r)
        ("image".toList) =
        decide (lowerStr (content_type_of r) = "image".toList ∨
          lowerStr (media_type_of r) = "image".toList) := rfl
    rw [this] at hpred
    exact of_decide_eq_true hpred
  · rw [hout, SortedDesc]
    have hs := sortedDesc_sortDescBy (fun r : CMResult => r.score)
      ((vq q (tk * 2)).filter (fun r =>
        matches_modality (content_type_of r) (media_type_of r)
          ("image".toList)))
    rw [SortedDesc] at hs
    exact hs.sublist (List.take_sublist tk _)
  · rw [hout]
    simp
  · intro ct mt
    have e1 : lowerStr ['t','e','x','t'] = ['t','e','x','t'] := by decide
    have e2 : lowerStr ['i','m','a','g','e'] = ['i','m','a','g','e'] := by decide
    have e3 : lowerStr ['a','u','d','i','o'] = ['a','u','d','i','o'] := by decide
    have e4 : lowerStr ['v','i','d','e','o'] = ['v','i','d','e','o'] := by decide
    have e5 : lowerStr ['t','a','b','l','e'] = ['t','a','b','l','e'] := by decide
    refine ⟨?_, ?_, ?_, ?_, ?_⟩ <;>
      simp [matches_modality, e1, e2, e3, e4, e5]

/-! ### Constrained generator — `src/nexusrag/generation/constrained.py` -/

/-- A JSON schema as used by `generate_json`: the optional `required` list
    of field names and the optional `properties` dict mapping a field to
    `field_schema.get("type")`. -/
structure Schema where
  required : Option (List (List Char))
  properties : Option (PyDict (List Char) (Option (List Char)))

/-- Python `field in data` for a string `field` and a parsed JSON `data`:
    key membership for a dict, equality membership for a list, substring
    test for a string; numbers, booleans and null are not iterable, raising
    `TypeError`. -/
def pyContains (data : Json) (field : List Char) : Except Unit Bool :=
  match data with
  | Json.obj o => Except.ok (decide (field ∈ dkeys o))
  | Json.arr l =>
      Except.ok (l.any (fun j =>
        match j with
        | Json.str s => decide (s = field)
        | _ => false))
  | Json.str s => Except.ok (pyIn field s)
  | _ => Except.error ()

/-- Python `data[field]` for a string `field`: a dict lookup; list and
    string subscripts by a string raise `TypeError` and a missing dict key
    raises `KeyError`. -/
def pyIndex (data : Json) (field : List Char) : Except Unit Json :=
  match data with
  | Json.obj o =>
      match dlookup o field with
      | some v => Except.ok v
      | none => Except.error ()
  | _ => Except.error ()

/-- The `expected_type`/`actual_type` comparison chain of
    `_validate_json_schema`; an expected type outside the five names never
    marks the field invalid.  `num` covers Python int and float; Python
    `bool` is its own type name, so a boolean fails the number check. -/
def matchesType (expected : List Char) (v : Json) : Bool :=
  if expected = "string".toList then
    (match v with | Json.str _ => true | _ => false)
  else if expected = "number".toList then
    (match v with | Json.num _ => true | _ => false)
  else if expected = "boolean".toList then
    (match v with | Json.bool _ => true | _ => false)
  else if expected = "array".toList then
    (match v with | Json.arr _ => true | _ => false)
  else if expected = "object".toList then
    (match v with | Json.obj _ => true | _ => false)
  else
    true

/-- The required-fields loop: the valid flag stays false once any field is
    missing; a `TypeError` from `field not in data` aborts validation. -/
def requiredOk (data : Json) : List (List Char) → Except Unit Bool
  | [] => Except.ok true
  | f :: rest =>
      match pyContains data f with
      | Except.error e => Except.error e
      | Except.ok b =>
          match requiredOk data rest with
          | Except.error e => Except.error e
          | Except.ok brest => Except.ok (b && brest)

/-- The properties loop: each present field with an expected type must
    match it. -/
def propsOk (data : Json) :
    PyDict (List Char) (Option (List Char)) → Except Unit Bool
  | [] => Except.ok true
  | (field, ftype) :: rest =>
      match pyContains data field with
      | Except.error e => Except.error e
      | Except.ok b =>
          let cur : Except Unit Bool :=
            if b then
              match ftype with
              | none => Except.ok true
              | some t =>
                  match pyIndex data field with
                  | Except.error e => Except.error e
                  | Except.ok v => Except.ok (matchesType t v)
            else Except.ok true
          match cur with
          | Except.error e => Except.error e
          | Except.ok bc =>
              match propsOk data rest with
              | Except.error e => Except.error e
              | Except.ok brest => Except.ok (bc && brest)

/-- `ConstrainedGenerator._validate_json_schema`, reduced to its valid
    flag (the errors list only feeds the refinement feedback). -/
def validate_json_schema (data : Json) (schema : Schema) : Except Unit Bool :=
  match (match schema.required with
         | none => Except.ok true
         | some fs => requiredOk data fs) with
  | Except.error e => Except.error e
  | Except.ok vr =>
      match (match schema.properties with
             | none => Except.ok true
             | some ps => propsOk data ps) with
      | Except.error e => Except.error e
      | Except.ok vp => Except.ok (vr && vp)

/-- The evolving prompt of `generate_json`: the original prompt, the
    schema embedded by the initial formatting instructions (`some` models
    a truthy, non-empty schema dict), and the responses of the failed
    attempts so far.  The Python prompt string is a deterministic function
    of these, since each `_refine_json_prompt` feedback is computed from
    the failing response and the constant schema, so an abstract
    `llm : JPrompt → List Char` loses no generality. -/
structure JPrompt where
  prompt : List Char
  schema : Option Schema
  fails : List (List Char)

/-- Appending one failed attempt to the prompt
    (`_refine_json_prompt`). -/
def addFail (jp : JPrompt) (response : List Char) : JPrompt :=
  ⟨jp.prompt, jp.schema, jp.fails ++ [response]⟩

/-- The `response` field of the returned dict: the parsed JSON object on
    success, the raw last response string on exhaustion. -/
inductive JGResponse where
  | parsed (j : Json)
  | raw (s : List Char)

/-- The dict returned by `generate_json`: `schema_valid` is `None` when no
    schema was given and the JSON parsed. -/
structure JsonGenResult where
  response : JGResponse
  valid_json : Bool
  schema_valid : Option Bool
  attempts : ℕ
  error : Option (List Char)

/-- The attempt loop of `generate_json`, recursing on the remaining
    attempts; `ma` is the constant `max_attempts` reported on exhaustion,
    `attempt` the 0-based counter, and `last` the `response` variable of
    the previous iteration — still unbound when `max_attempts` is 0, in
    which case the final return raises `UnboundLocalError`. -/
def genLoop (llm : JPrompt → List Char) (parse : List Char → Option Json)
    (ma : ℕ) : JPrompt → ℕ → Option (List Char) → ℕ →
    Except Unit JsonGenResult
  | _, _, none, 0 => Except.error ()
  | _, _, some r, 0 =>
      Except.ok ⟨JGResponse.raw r, false, some false, ma,
        some ("Unable to generate valid JSON after maximum attempts".toList)⟩
  | jp, attempt, _, Nat.succ n =>
      let response := llm jp
      match parse response with
      | none => genLoop llm parse ma (addFail jp response) (attempt + 1)
          (some response) n
      | some parsed_json =>
          match jp.schema with
          | none =>
              Except.ok ⟨JGResponse.parsed parsed_json, true, none,
                attempt + 1, none⟩
          | some sch =>
              match validate_json_schema parsed_json sch with
              | Except.error e => Except.error e
              | Except.ok true =>
                  Except.ok ⟨JGResponse.parsed parsed_json, true, some true,
                    attempt + 1, none⟩
              | Except.ok false =>
                  genLoop llm parse ma (addFail jp response) (attempt + 1)
                    (some response) n

/-- `ConstrainedGenerator.generate_json`. -/
def generate_json (llm : JPrompt → List Char)
    (parse : List Char → Option Json) (prompt : List Char)
    (schema : Option Schema) (max_attempts : ℕ) :
    Except Unit JsonGenResult :=
  genLoop llm parse max_attempts ⟨prompt, schema, []⟩ 0 none max_attempts

/-- The prompt before the k-th (0-based) attempt, assuming all earlier
    attempts failed — the only case in which later prompts are used. -/
def jpromptIter (llm : JPrompt → List Char) (jp : JPrompt) : ℕ → JPrompt
  | 0 => jp
  | k + 1 => addFail (jpromptIter llm jp k) (llm (jpromptIter llm jp k))

/-- Whether one attempt with the given current prompt succeeds: its
    response must parse and, when a schema is given, validate. -/
def stepOutcome (llm : JPrompt → List Char)
    (parse : List Char → Option Json) (jp : JPrompt) : Except Unit Bool :=
  match parse (llm jp) with
  | none => Except.ok false
  | some j =>
      match jp.schema with
      | none => Except.ok true
      | some sch => validate_json_schema j sch

theorem jpromptIter_schema (llm : JPrompt → List Char) (jp : JPrompt) :
    ∀ k, (jpromptIter llm jp k).schema = jp.schema := by
  intro k
  induction k with
  | zero => rfl
  | succ k ih => simp [jpromptIter, addFail, ih]

theorem jpromptIter_shift (llm : JPrompt → List Char) (jp : JPrompt) :
    ∀ k, jpromptIter llm (addFail jp (llm jp)) k = jpromptIter llm jp (k + 1) := by
  intro k
  induction k with
  | zero => rfl
  | succ k ih => simp [jpromptIter, ih]

theorem genLoop_first_success (llm : JPrompt → List Char)
    (parse : List Char → Option Json) (ma : ℕ) :
    ∀ (i n : ℕ) (jp : JPrompt) (a : ℕ) (last : Option (List Char)),
      i < n →
      (∀ k, k < i →
        stepOutcome llm parse (jpromptIter llm jp k) = Except.ok false) →
      stepOutcome llm parse (jpromptIter llm jp i) = Except.ok true →
      ∃ j, parse (llm (jpromptIter llm jp i)) = some j ∧
        genLoop llm parse ma jp a last n =
          Except.ok ⟨JGResponse.parsed j, true,
            (match jp.schema with
             | none => none
             | some _ => some true), a + i + 1, none⟩ := by
  intro i
  induction i with
  | zero =>
      intro n jp a last hin hfail hsucc
      cases n with
      | zero => omega
      | succ m =>
          cases hp : parse (llm jp) with
          | none =>
              simp only [stepOutcome, jpromptIter, hp] at hsucc
              simp at hsucc
          | some j =>
              refine ⟨j, hp, ?_⟩
              cases hsch : jp.schema with
              | none => simp only [genLoop, hp, hsch]
              | some sch =>
                  have hval : validate_json_schema j sch = Except.ok true := by
                    simp only [stepOutcome, jpromptIter, hp, hsch] at hsucc
                    exact hsucc
                  simp only [genLoop, hp, hsch, hval]
  | succ i ih =>
      intro n jp a last hin hfail hsucc
      cases n with
      | zero => omega
      | succ m =>
          have h0 := hfail 0 (Nat.succ_pos i)
          have harith : a + 1 + i + 1 = a + (i + 1) + 1 := by omega
          cases hp : parse (llm jp) with
          | none =>
              obtain ⟨j, hj, hg⟩ := ih m (addFail jp (llm jp)) (a + 1)
                (some (llm jp)) (by omega)
                (fun k hk => by
                  rw [jpromptIter_shift]
                  exact hfail (k + 1) (by omega))
                (by rw [jpromptIter_shift]; exact hsucc)
              refine ⟨j, ?_, ?_⟩
              · rw [jpromptIter_shift] at hj
                exact hj
              · simp only [genLoop, hp]
                rw [hg, harith]
                rfl
          | some j0 =>
              cases hsch : jp.schema with
              | none =>
                  simp only [stepOutcome, jpromptIter, hp, hsch] at h0
                  simp at h0
              | some sch =>
                  have hval : validate_json_schema j0 sch = Except.ok false := by
                    simp only [stepOutcome, jpromptIter, hp, hsch] at h0
                    exact h0
                  obtain ⟨j, hj, hg⟩ := ih m (addFail jp (llm jp)) (a + 1)
                    (some (llm jp)) (by omega)
                    (fun k hk => by
                      rw [jpromptIter_shift]
                      exact hfail (k + 1) (by omega))
                    (by rw [jpromptIter_shift]; exact hsucc)
                  refine ⟨j, ?_, ?_⟩
                  · rw [jpromptIter_shift] at hj
                    exact hj
                  · simp only [genLoop, hp, hsch, hval]
                    rw [hg, harith,
                      show (addFail jp (llm jp)).schema = some sch from hsch]

theorem genLoop_step_parsefail (llm : JPrompt → List Char)
    (parse : List Char → Option Json) (ma : ℕ) (jp : JPrompt) (a : ℕ)
    (last : Option (List Char)) (n : ℕ) (hp : parse (llm jp) = none) :
    genLoop llm parse ma jp a last (n + 1) =
      genLoop llm parse ma (addFail jp (llm jp)) (a + 1) (some (llm jp)) n := by
  simp only [genLoop, hp]

theorem genLoop_step_invalid (llm : JPrompt → List Char)
    (parse : List Char → Option Json) (ma : ℕ) (jp : JPrompt) (a : ℕ)
    (last : Option (List Char)) (n : ℕ) (j0 : Json) (sch : Schema)
    (hp : parse (llm jp) = some j0) (hsch : jp.schema = some sch)
    (hval : validate_json_schema j0 sch = Except.ok false) :
    genLoop llm parse ma jp a last (n + 1) =
      genLoop llm parse ma (addFail jp (llm jp)) (a + 1) (some (llm jp)) n := by
  simp only [genLoop, hp, hsch, hval]

theorem genLoop_exhaust (llm : JPrompt → List Char)
    (parse : List Char → Option Json) (ma : ℕ) :
    ∀ (n : ℕ) (jp : JPrompt) (a : ℕ) (last : Option (List Char)),
      1 ≤ n →
      (∀ k, k < n →
        stepOutcome llm parse (jpromptIter llm jp k) = Except.ok false) →
      genLoop llm parse ma jp a last n =
        Except.ok ⟨JGResponse.raw (llm (jpromptIter llm jp (n - 1))), false,
          some false, ma,
          some ("Unable to generate valid JSON after maximum attempts".toList)⟩ := by
  intro n
  induction n with
  | zero => intro jp a last h; omega
  | succ m ih =>
      intro jp a last _ hfail
      have h0 := hfail 0 (by omega)
      have hstep : genLoop llm parse ma jp a last (m + 1) =
          genLoop llm parse ma (addFail jp (llm jp)) (a + 1) (some (llm jp))
            m := by
        cases hp : parse (llm jp) with
        | none => exact genLoop_step_parsefail llm parse ma jp a last m hp
        | some j0 =>
            cases hsch : jp.schema with
            | none =>
                simp only [stepOutcome, jpromptIter, hp, hsch] at h0
                simp at h0
            | some sch =>
                have hval : validate_json_schema j0 sch = Except.ok false := by
                  simp only [stepOutcome, jpromptIter, hp, hsch] at h0
                  exact h0
                exact genLoop_step_invalid llm parse ma jp a last m j0 sch hp
                  hsch hval
      rw [hstep]
      cases m with
      | zero => rfl
      | succ m2 =>
          have hrec := ih (addFail jp (llm jp)) (a + 1) (some (llm jp))
            (by omega)
            (fun k hk => by
              rw [jpromptIter_shift]
              exact hfail (k + 1) (by omega))
          rw [hrec, show m2 + 1 - 1 = m2 from rfl,
            show m2 + 1 + 1 - 1 = m2 + 1 from rfl, jpromptIter_shift]

/-- C9 (amended): when attempt i (0-based) is the first whose response both
    parses as JSON and — when a schema is given — validates against it,
    generate_json returns valid_json true, the parsed response and
    attempts = i + 1; when all max_attempts ≥ 1 attempts fail in that
    sense, it returns the last raw response with valid_json false,
    attempts = max_attempts and the error message.  The original claim
    holds only for attempts that fail cleanly: a response parsing to
    non-iterable JSON (number, boolean or null) under a schema with
    required fields makes the validator raise TypeError. -/
theorem generate_json_retry (llm : JPrompt → List Char)
    (parse : List Char → Option Json) (prompt : List Char)
    (sch : Option Schema) (ma : ℕ) (hma : 1 ≤ ma) :
    (∀ i, i < ma →
      (∀ k, k < i →
        stepOutcome llm parse
          (jpromptIter llm ⟨prompt, sch, []⟩ k) = Except.ok false) →
      stepOutcome llm parse
        (jpromptIter llm ⟨prompt, sch, []⟩ i) = Except.ok true →
      ∃ j, parse (llm (jpromptIter llm ⟨prompt, sch, []⟩ i)) = some j ∧
        generate_json llm parse prompt sch ma =
          Except.ok ⟨JGResponse.parsed j, true,
            (match sch with
             | none => none
             | some _ => some true), i + 1, none⟩) ∧
    ((∀ k, k < ma →
        stepOutcome llm parse
          (jpromptIter llm ⟨prompt, sch, []⟩ k) = Except.ok false) →
      generate_json llm parse prompt sch ma =
        Except.ok ⟨JGResponse.raw
            (llm (jpromptIter llm ⟨prompt, sch, []⟩ (ma - 1))), false,
          some false, ma,
          some ("Unable to generate valid JSON after maximum attempts".toList)⟩) := by
  constructor
  · intro i hi hfail hsucc
    obtain ⟨j, hj, hg⟩ := genLoop_first_success llm parse ma i ma
      ⟨prompt, sch, []⟩ 0 none hi hfail hsucc
    exact ⟨j, hj, by rw [generate_json, hg, Nat.zero_add]⟩
  · intro hfail
    rw [generate_json,
      genLoop_exhaust llm parse ma ma ⟨prompt, sch, []⟩ 0 none hma hfail]

/-- Counterexample to C9 as stated: an LLM always answering the valid JSON
    text 5 with a schema requiring field a makes the required-field loop
    evaluate a membership test on an int, raising TypeError on the very
    first attempt instead of retrying or returning an error result. -/
theorem generate_json_typeerror_counterexample :
    generate_json (fun _ => ['5'])
      (fun s => if s = ['5'] then some (Json.num 5) else none)
      ['p'] (some ⟨some [['a']], none⟩) 3 = Except.error () := rfl

/-- Witness for C9, the scenario of the claim: invalid JSON on attempt 1,
    valid schema-matching JSON on attempt 2, giving valid_json true and
    attempts 2. -/
theorem generate_json_retry_witness :
    generate_json
      (fun jp => if jp.fails.isEmpty then "bad".toList else "good".toList)
      (fun s => if s = "good".toList then
          some (Json.obj [(['a'], Json.num 1)]) else none)
      ['p'] (some ⟨some [['a']], none⟩) 3 =
      Except.ok ⟨JGResponse.parsed (Json.obj [(['a'], Json.num 1)]), true,
        some true, 2, none⟩ := by
  obtain ⟨j, hj, hg⟩ := (generate_json_retry
      (fun jp => if jp.fails.isEmpty then "bad".toList else "good".toList)
      (fun s => if s = "good".toList then
          some (Json.obj [(['a'], Json.num 1)]) else none)
      ['p'] (some ⟨some [['a']], none⟩) 3 (by norm_num)).1 1 (by norm_num)
    (fun k hk => by
      have hk0 : k = 0 := by omega
      subst hk0
      rfl)
    rfl
  have h2 : some (Json.obj [(['a'], Json.num 1)]) = some j := hj
  have hx : Json.obj [(['a'], Json.num 1)] = j := Option.some.inj h2
  subst hx
  exact hg
